import Mathlib

set_option maxHeartbeats 1000000

/-!
Shallow embedding of `src/loaders/lib/parse-fourwings.ts` (the fourwings
tile decoder) and proofs about it.

Conventions of the embedding:
* decoded varint streams are `List ℕ` (`FourwingsRawData = number[]`);
* JavaScript numeric results are modelled by `JSNum` (exact rationals,
  `NaN`, signed infinities); reading a missing array slot (`undefined`)
  is modelled by `Option`;
* sparse JS arrays (`new Array(n)` with holes) are `List (Option _)` of
  the allocated length, `none` marking a hole;
* the JS object `features` (keyed by the numeric `cellNum`) is an
  association list in insertion order; `Object.values` enumerates
  array-index keys (`< 2^32 - 1`) in ascending numeric order first, then
  the remaining keys in insertion order, which `objectValues` reproduces;
* the external collaborators that are imported but not part of the
  repository sources (`CONFIG_BY_INTERVAL`, `getTimeRangeKey`,
  `getCellProperties`, `getCellCoordinates`, `generateUniqueId`, the
  `pbf` varint reader) are modelled from the spec, as marked on each.
-/

namespace Fourwings

/-- JavaScript number results that the decoder can produce: exact
rationals, `NaN` (arithmetic on `undefined`, or `0 / 0`), and signed
infinities (nonzero divided by zero); `inf true` is `+Infinity`. -/
inductive JSNum where
  | nan : JSNum
  | inf : Bool → JSNum
  | num : ℚ → JSNum
deriving DecidableEq, Repr

/-- JS addition `a + v` where `a` may be `undefined` (`none`):
`undefined + x` is `NaN`; `NaN` propagates; infinities of opposite sign
give `NaN`. -/
def jsAddOpt (a : Option JSNum) (v : JSNum) : JSNum :=
  match a, v with
  | none, _ => JSNum.nan
  | some JSNum.nan, _ => JSNum.nan
  | some _, JSNum.nan => JSNum.nan
  | some (JSNum.inf b), JSNum.inf c => if b = c then JSNum.inf b else JSNum.nan
  | some (JSNum.inf b), JSNum.num _ => JSNum.inf b
  | some (JSNum.num _), JSNum.inf c => JSNum.inf c
  | some (JSNum.num a), JSNum.num b => JSNum.num (a + b)

/-- JS division `a / n` of a possibly-`undefined` accumulator by the
natural counter `n`: `undefined / n = NaN`, `0 / 0 = NaN`, nonzero
`q / 0 = ±Infinity`, otherwise exact rational division. -/
def jsDivCount (a : Option JSNum) (n : ℕ) : JSNum :=
  match a with
  | none => JSNum.nan
  | some JSNum.nan => JSNum.nan
  | some (JSNum.inf b) => JSNum.inf b
  | some (JSNum.num q) =>
      if n = 0 then (if q = 0 then JSNum.nan else JSNum.inf (0 < q))
      else JSNum.num (q / n)

/-- The transform `cellValue * scale - offset` of a raw sample; a raw
sample read out of bounds is `undefined` and the JS arithmetic yields
`NaN`. -/
def transform (cellValue : Option ℕ) (scale offset : ℚ) : JSNum :=
  match cellValue with
  | none => JSNum.nan
  | some v => JSNum.num ((v : ℚ) * scale - offset)

/-- JS sparse-array assignment `l[i] = v`: a negative index is a plain
string property (invisible to the array part, modelled as a no-op),
an index below the length overwrites the slot, and a larger index
extends the array with holes up to `i`. -/
def jsSetAt {α : Type} (l : List (Option α)) (i : ℤ) (v : α) : List (Option α) :=
  if i < 0 then l
  else if i.toNat < l.length then l.set i.toNat (some v)
  else l ++ List.replicate (i.toNat - l.length) none ++ [some v]

/-- JS array read `l[i]`: out-of-range reads give `undefined`. -/
def getEntry {α : Type} (l : List (Option α)) (i : ℕ) : Option α :=
  l.getD i none

/-- In-range JS array write of a possibly-`undefined` value (used for the
per-sublayer slots, whose index is always below the allocated length). -/
def setEntry {α : Type} (l : List (Option α)) (i : ℕ) (v : Option α) : List (Option α) :=
  l.set i v

/-- Bounding box `[west, south, east, north]` of the tile. -/
def BBox : Type := ℚ × ℚ × ℚ × ℚ

instance : DecidableEq BBox := by unfold BBox; infer_instance

instance : Repr BBox := by unfold BBox; infer_instance

/-- Modelled from the spec: `cellRowCol(boundingBox, cellIndex, cols) ->
(row, col)` derives the row/column pair from the linear cell index and
the grid width (`src/loaders/helpers/cells` is not part of the given
sources). -/
def getCellProperties (_tileBBox : BBox) (cellNum : ℕ) (cols : ℕ) : ℕ × ℕ :=
  (cellNum / cols, cellNum % cols)

/-- Modelled from the spec: `cellGeometry(boundingBox, cellIndex, cols,
rows) -> polygon` is an external deterministic function of its four
arguments (`src/loaders/helpers/cells` is not part of the given
sources); the polygon ring is represented opaquely by those arguments. -/
structure CellCoords where
  cellIndex : ℕ
  cols : ℕ
  rows : ℕ
  tileBBox : BBox
deriving DecidableEq, Repr

/-- Modelled from the spec: builds the opaque polygon ring. -/
def getCellCoordinates (cellIndex cols rows : ℕ) (tileBBox : BBox) : CellCoords :=
  { cellIndex := cellIndex, cols := cols, rows := rows, tileBBox := tileBBox }

/-- Modelled from the spec: `uniqueCellId(tileX, tileY, cellIndex)` is an
external deterministic function of the three arguments
(`src/loaders/helpers/cells` is not part of the given sources). -/
def generateUniqueId (x y : ℤ) (cellNum : ℕ) : ℤ × ℤ × ℕ :=
  (x, y, cellNum)

/-- Modelled from the spec: `rangeKey(startFrame, endFrame)` is a
deterministic key identifying a time range
(`src/loaders/helpers/time` is not part of the given sources). -/
def getTimeRangeKey (startFrame endFrame : ℤ) : ℤ × ℤ :=
  (startFrame, endFrame)

/-- Modelled from the spec: the entry of `CONFIG_BY_INTERVAL` selected by
the configured `interval`: a frame index for a calendar instant and a
timestamp for a frame index (instants and timestamps are abstracted to
integers). -/
structure IntervalConfig where
  getIntervalFrame : ℤ → ℤ
  getIntervalTimestamp : ℤ → ℤ

/-- The tile descriptor: bounding box and integer tile coordinates. -/
structure Tile where
  bbox : BBox
  x : ℤ
  y : ℤ

/-- The aggregation operation option (`'sum'` or `'avg'`). -/
inductive AggOp where
  | sum : AggOp
  | avg : AggOp
deriving DecidableEq, Repr

/-- The `ParseFourwingsOptions` record; fields that the source
destructures with a default are `Option`s here. -/
structure ParseFourwingsOptions where
  bufferedStartDate : ℤ
  interval : IntervalConfig
  sublayers : ℤ
  initialTimeRange : Option (ℤ × ℤ)
  aggregationOperation : Option AggOp
  scale : Option ℚ
  offset : Option ℚ
  noDataValue : Option ℕ
  tile : Tile
  cols : ℕ
  rows : ℕ
  buffersLength : Option (List ℕ)

/-- The `FourwingsLoaderOptions` wrapper. -/
structure FourwingsLoaderOptions where
  fourwings : Option ParseFourwingsOptions

def NO_DATA_VALUE : ℕ := 4294967295
def SCALE_VALUE : ℚ := 1
def OFFSET_VALUE : ℚ := 0
def CELL_NUM_INDEX : ℕ := 0
def CELL_START_INDEX : ℕ := 1
def CELL_END_INDEX : ℕ := 2
def CELL_VALUES_START_INDEX : ℕ := 3

/-- The properties object of a decoded feature. The `initialValues`
object holds a single key, `getTimeRangeKey timeRangeStartFrame
timeRangeEndFrame`, recorded in `initialValuesKey`; `initialValues` is
the per-sublayer array stored under that key. -/
structure FeatureProps where
  col : ℕ
  row : ℕ
  values : List (Option (List (Option JSNum)))
  dates : List (Option (List (Option ℤ)))
  cellId : ℤ × ℤ × ℕ
  cellNum : ℕ
  startOffsets : List (Option ℤ)
  initialValuesKey : ℤ × ℤ
  initialValues : List (Option JSNum)
deriving DecidableEq, Repr

/-- A decoded `FourwingsFeature`; `geometry` is the polygon's single
ring (the constant `type` tags are omitted). -/
structure FourwingsFeature where
  geometry : List CellCoords
  properties : FeatureProps
deriving DecidableEq, Repr

/-- The configuration the assembler loop actually consumes, as
destructured and precomputed at the top of `getCellTimeseries`. -/
structure AsmConfig where
  sublayersLength : ℕ
  sublayers : ℤ
  tileStartFrame : ℤ
  timeRangeStartFrame : ℤ
  timeRangeEndFrame : ℤ
  aggregationOperation : AggOp
  scale : ℚ
  offset : ℚ
  noDataValue : ℕ
  getIntervalTimestamp : ℤ → ℤ
  tileBBox : BBox
  tileX : ℤ
  tileY : ℤ
  cols : ℕ
  rows : ℕ

/-- Creation of the feature object for a never-before-seen `cellNum`
(lines 93-119 of the source): geometry, `col`/`row`, `cellId` computed
once, and per-sublayer arrays allocated at length `sublayersLength`
with every slot unset. -/
def materializeFeature (cfg : AsmConfig) (cellNum : ℕ) : FourwingsFeature :=
  let cp := getCellProperties cfg.tileBBox cellNum cfg.cols
  { geometry := [getCellCoordinates cellNum cfg.cols cfg.rows cfg.tileBBox]
    properties :=
      { col := cp.2
        row := cp.1
        values := List.replicate cfg.sublayersLength none
        dates := List.replicate cfg.sublayersLength none
        cellId := generateUniqueId cfg.tileX cfg.tileY cellNum
        cellNum := cellNum
        startOffsets := List.replicate cfg.sublayersLength none
        initialValuesKey := getTimeRangeKey cfg.timeRangeStartFrame cfg.timeRangeEndFrame
        initialValues := List.replicate cfg.sublayersLength none } }

/-- The slots of one feature touched while processing one record of one
sublayer: the sublayer's entry of `values`, `dates`, `startOffsets` and
`initialValues[timeRangeKey]`, plus the record-local in-range counter
`numValuesBySubLayer[subLayerIndex]` (fresh at each record, line 90). -/
structure SubState where
  values : Option (List (Option JSNum))
  dates : Option (List (Option ℤ))
  startOffset : Option ℤ
  initialValue : Option JSNum
  count : ℕ
deriving DecidableEq, Repr

/-- The parameters of the inner `j` loop over one record's values
(lines 121-161): the absolute read `subLayerIntArray[j + startIndex]`
is abstracted to `getAt j`, and `ncv` is `numCellValues`. -/
structure RecParams where
  getAt : ℕ → Option ℕ
  noDataValue : ℕ
  scale : ℚ
  offset : ℚ
  sublayers : ℤ
  tileStartFrame : ℤ
  startFrame : ℤ
  timeRangeStartFrame : ℤ
  timeRangeEndFrame : ℤ
  getIntervalTimestamp : ℤ → ℤ
  ncv : ℕ

/-- The in-range test the source performs at position `j` of a record
(lines 150-153): `timeRangeStartFrame ≤ j + startFrame <
timeRangeEndFrame`, on the raw position `j`. -/
def inRangeAt (p : RecParams) (j : ℕ) : Prop :=
  p.timeRangeStartFrame ≤ (j : ℤ) + p.startFrame ∧
    (j : ℤ) + p.startFrame < p.timeRangeEndFrame

instance (p : RecParams) (j : ℕ) : Decidable (inRangeAt p j) := by
  unfold inRangeAt; infer_instance

/-- One iteration of the inner `j` loop (lines 121-161): skip the
no-data sentinel (an out-of-range read is `undefined`, which is *not*
the sentinel), allocate the per-sublayer arrays on the first kept
sample, store value and timestamp at slot `Math.floor(j / sublayers)`,
and accumulate when `j + startFrame` lies in the initial time range. -/
def stepJ (p : RecParams) (s : SubState) (j : ℕ) : SubState :=
  let cellValue := p.getAt j
  if cellValue = some p.noDataValue then s
  else
    let s1 : SubState :=
      if s.values = none then
        { values := some (List.replicate p.ncv none)
          dates := some (List.replicate p.ncv none)
          startOffset := some p.startFrame
          initialValue := some (JSNum.num 0)
          count := s.count }
      else s
    let v := transform cellValue p.scale p.offset
    let slot := (j : ℤ).fdiv p.sublayers
    let s2 : SubState :=
      { s1 with
        values := some (jsSetAt (s1.values.getD []) slot v)
        dates := some (jsSetAt (s1.dates.getD []) slot
          (p.getIntervalTimestamp (p.startFrame + p.tileStartFrame + j))) }
    if inRangeAt p j then
      { s2 with initialValue := some (jsAddOpt s2.initialValue v), count := s2.count + 1 }
    else s2

/-- The inner `j` loop over all `numCellValues` positions of one record
(line 121). -/
def processLoop (p : RecParams) (s : SubState) : SubState :=
  (List.range p.ncv).foldl (stepJ p) s

/-- One record's effect on the touched sublayer slots: run the `j` loop,
then, when the aggregation operation is `avg`, divide the accumulated
initial value by the in-range counter (lines 162-169; the division is
unconditional, so an untouched `undefined` entry becomes `NaN`). -/
def processRecordSub (agg : AggOp) (p : RecParams) (s : SubState) : SubState :=
  let s' := processLoop p s
  match agg with
  | AggOp.avg => { s' with initialValue := some (jsDivCount s'.initialValue s'.count) }
  | AggOp.sum => s'

/-- Lookup of `features[cellNum]` in the insertion-ordered association
list. -/
def findFeat (feats : List (ℕ × FourwingsFeature)) (k : ℕ) : Option FourwingsFeature :=
  (feats.find? (fun e => e.1 = k)).map (fun e => e.2)

/-- In-place mutation of `features[cellNum]`. -/
def updateFeat (feats : List (ℕ × FourwingsFeature)) (k : ℕ)
    (g : FourwingsFeature → FourwingsFeature) : List (ℕ × FourwingsFeature) :=
  feats.map (fun e => if e.1 = k then (e.1, g e.2) else e)

/-- The sublayer slots of a feature read back as a `SubState`; the
in-range counter starts at `0` for each record (line 90). -/
def extractSub (f : FourwingsFeature) (sub : ℕ) : SubState :=
  { values := getEntry f.properties.values sub
    dates := getEntry f.properties.dates sub
    startOffset := getEntry f.properties.startOffsets sub
    initialValue := getEntry f.properties.initialValues sub
    count := 0 }

/-- Writing the record's final `SubState` back into the feature's
per-sublayer arrays. -/
def writeBackSub (f : FourwingsFeature) (sub : ℕ) (s : SubState) : FourwingsFeature :=
  { f with
    properties :=
      { f.properties with
        values := setEntry f.properties.values sub s.values
        dates := setEntry f.properties.dates sub s.dates
        startOffsets := setEntry f.properties.startOffsets sub s.startOffset
        initialValues := setEntry f.properties.initialValues sub s.initialValue } }

/-- The loop parameters the record handler passes to the value loop:
the assembler configuration plus the record's `startFrame` and reader,
with `numCellValues` iterations. -/
def recParamsOf (cfg : AsmConfig) (startFrame : ℤ) (getAt : ℕ → Option ℕ) (ncv : ℕ) :
    RecParams :=
  { getAt := getAt
    noDataValue := cfg.noDataValue
    scale := cfg.scale
    offset := cfg.offset
    sublayers := cfg.sublayers
    tileStartFrame := cfg.tileStartFrame
    startFrame := startFrame
    timeRangeStartFrame := cfg.timeRangeStartFrame
    timeRangeEndFrame := cfg.timeRangeEndFrame
    getIntervalTimestamp := cfg.getIntervalTimestamp
    ncv := ncv }

/-- Processing of one full record (the `CELL_END_INDEX` branch, lines
84-173): compute `numCellValues`, create the feature if no previous
sublayer contained data for this cell, then run the value loop and the
optional average division on this sublayer's slots. -/
def applyRecord (cfg : AsmConfig) (sub : ℕ) (cellNum : ℕ) (startFrame endFrame : ℤ)
    (getAt : ℕ → Option ℕ) (feats : List (ℕ × FourwingsFeature)) :
    List (ℕ × FourwingsFeature) :=
  let ncv := (endFrame - startFrame + 1) * cfg.sublayers
  let feats1 :=
    if (findFeat feats cellNum).isSome then feats
    else feats ++ [(cellNum, materializeFeature cfg cellNum)]
  updateFeat feats1 cellNum (fun f =>
    writeBackSub f sub
      (processRecordSub cfg.aggregationOperation
        (recParamsOf cfg startFrame getAt ncv.toNat)
        (extractSub f sub)))

/-- The scan of one sublayer's integer stream (lines 69-176), a faithful
rendering of the `for` loop with its four-phase `indexInCell` role and
the cursor jump `i = startIndex + numCellValues - 1` after a record.
The `fuel` bounds the number of iterations; `arr.length + 1` suffices
whenever the cursor advances (in particular whenever
`numCellValues ≥ 0` at every record). A jump to a negative cursor
(possible only when `numCellValues < -startIndex`, where the original
reads `undefined` tokens as headers) stops the scan. -/
def scanSub (cfg : AsmConfig) (arr : List ℕ) (sub : ℕ) :
    ℕ → ℕ → ℕ → ℕ → ℤ → ℕ → List (ℕ × FourwingsFeature) → List (ℕ × FourwingsFeature)
  | 0, _, _, _, _, _, feats => feats
  | fuel + 1, i, indexInCell, cellNum, startFrame, startIndex, feats =>
    if h : i < arr.length then
      let value := arr.get ⟨i, h⟩
      if indexInCell = CELL_NUM_INDEX then
        scanSub cfg arr sub fuel (i + 1) 1 value startFrame (i + CELL_VALUES_START_INDEX) feats
      else if indexInCell = CELL_START_INDEX then
        scanSub cfg arr sub fuel (i + 1) 2 cellNum ((value : ℤ) - cfg.tileStartFrame)
          startIndex feats
      else
        let endFrame := (value : ℤ) - cfg.tileStartFrame
        let ncv := (endFrame - startFrame + 1) * cfg.sublayers
        let feats' := applyRecord cfg sub cellNum startFrame endFrame
          (fun j => arr.get? (startIndex + j)) feats
        let nextI := (startIndex : ℤ) + ncv
        if nextI < 0 then feats'
        else scanSub cfg arr sub fuel nextI.toNat 0 cellNum startFrame startIndex feats'
    else feats

/-- The `Object.values` enumeration order of a JS object with numeric
keys: array-index keys (canonical integers below `2^32 - 1`) in
ascending order, then the remaining keys in insertion order. -/
def objectValues (feats : List (ℕ × FourwingsFeature)) : List FourwingsFeature :=
  ((feats.filter (fun e => e.1 < 4294967295)).insertionSort (fun a b => a.1 ≤ b.1)
      ++ feats.filter (fun e => ¬ e.1 < 4294967295)).map (fun e => e.2)

/-- The assembler configuration built by the destructuring and the frame
precomputations at the top of `getCellTimeseries` (lines 29-54),
given the unwrapped options and the initial time range instants. -/
def mkAsmConfig (sublayersLength : ℕ) (o : ParseFourwingsOptions)
    (rangeStart rangeEnd : ℤ) : AsmConfig :=
  let tileStartFrame := o.interval.getIntervalFrame o.bufferedStartDate
  { sublayersLength := sublayersLength
    sublayers := o.sublayers
    tileStartFrame := tileStartFrame
    timeRangeStartFrame := o.interval.getIntervalFrame rangeStart - tileStartFrame
    timeRangeEndFrame := o.interval.getIntervalFrame rangeEnd - tileStartFrame
    aggregationOperation := o.aggregationOperation.getD AggOp.sum
    scale := o.scale.getD SCALE_VALUE
    offset := o.offset.getD OFFSET_VALUE
    noDataValue := o.noDataValue.getD NO_DATA_VALUE
    getIntervalTimestamp := o.interval.getIntervalTimestamp
    tileBBox := o.tile.bbox
    tileX := o.tile.x
    tileY := o.tile.y
    cols := o.cols
    rows := o.rows }

/-- The fold of the per-sublayer scans over the `features` object
(lines 63-177), for unpacked options and time-range instants. -/
def assembleEntries (intArrays : List (List ℕ)) (o : ParseFourwingsOptions)
    (rangeStart rangeEnd : ℤ) : List (ℕ × FourwingsFeature) :=
  let cfg := mkAsmConfig intArrays.length o rangeStart rangeEnd
  (List.range intArrays.length).foldl
    (fun feats sub =>
      let arr := intArrays.getD sub []
      scanSub cfg arr sub (arr.length + 1) 0 0 0 0 0 feats)
    []

/-- The in-progress `features` object after all sublayer scans, in
insertion order (lines 42-177): empty when `initialTimeRange` (or the
whole options object) is absent, otherwise the fold of `scanSub` over
the sublayers in input order. -/
def featureEntries (intArrays : List (List ℕ)) (options : Option FourwingsLoaderOptions) :
    List (ℕ × FourwingsFeature) :=
  match options.bind (fun o => o.fourwings) with
  | none => []
  | some o =>
    match o.initialTimeRange with
    | none => []
    | some (rangeStart, rangeEnd) => assembleEntries intArrays o rangeStart rangeEnd

/-- `getCellTimeseries` (lines 25-180): the sublayer scans over the
`features` object followed by `Object.values`. -/
def getCellTimeseries (intArrays : List (List ℕ))
    (options : Option FourwingsLoaderOptions) : List FourwingsFeature :=
  objectValues (featureEntries intArrays options)

/-- The buffer slicing of `parseFourwings` (lines 196-206): each length
takes the next `length` bytes (a zero length yields an empty stream
without decoding), and nonempty slices go through the packed-varint
reader, abstracted as `decodeBuffer`. -/
def sliceBuffers (decodeBuffer : List ℕ → List ℕ) (datasetsBuffer : List ℕ) :
    List ℕ → ℕ → List (List ℕ)
  | [], _ => []
  | length :: rest, start =>
    (if length = 0 then []
     else decodeBuffer ((datasetsBuffer.drop start).take length)) ::
      sliceBuffers decodeBuffer datasetsBuffer rest (start + length)

/-- `parseFourwings` (lines 186-209): short-circuit to `[]` on a missing
or empty `buffersLength`, otherwise slice, decode and assemble. The
external `pbf` packed-varint reader is abstracted as the `decodeBuffer`
argument. -/
def parseFourwings (decodeBuffer : List ℕ → List ℕ) (datasetsBuffer : List ℕ)
    (options : Option FourwingsLoaderOptions) : List FourwingsFeature :=
  let buffersLength :=
    ((options.bind (fun o => o.fourwings)).bind (fun o => o.buffersLength)).getD []
  if buffersLength.length = 0 then []
  else getCellTimeseries (sliceBuffers decodeBuffer datasetsBuffer buffersLength 0) options

/-- The sublayer slots before any record has touched them: every array
entry `undefined`, counter zero. -/
def freshSub : SubState :=
  { values := none, dates := none, startOffset := none, initialValue := none, count := 0 }

/-- The loop parameters for a well-formed record whose value region is
exactly the list `vs` (so `numCellValues = vs.length` and every read is
in bounds). -/
def recParamsOfList (noData : ℕ) (scale offset : ℚ) (bands tileStart startFrame trs tre : ℤ)
    (ts : ℤ → ℤ) (vs : List ℕ) : RecParams :=
  { getAt := fun j => vs.get? j
    noDataValue := noData
    scale := scale
    offset := offset
    sublayers := bands
    tileStartFrame := tileStart
    startFrame := startFrame
    timeRangeStartFrame := trs
    timeRangeEndFrame := tre
    getIntervalTimestamp := ts
    ncv := vs.length }

/-- The loop parameters for a truncated record: the stream holds only
`vs` but the header declares `ncv` values, so positions past
`vs.length` read `undefined`. -/
def recParamsTruncated (noData : ℕ) (scale offset : ℚ)
    (bands tileStart startFrame trs tre : ℤ) (ts : ℤ → ℤ) (vs : List ℕ) (ncv : ℕ) :
    RecParams :=
  { getAt := fun j => vs.get? j
    noDataValue := noData
    scale := scale
    offset := offset
    sublayers := bands
    tileStartFrame := tileStart
    startFrame := startFrame
    timeRangeStartFrame := trs
    timeRangeEndFrame := tre
    getIntervalTimestamp := ts
    ncv := ncv }

/-- Position `j` holds the no-data sentinel. -/
def sentinelAt (p : RecParams) (j : ℕ) : Prop :=
  p.getAt j = some p.noDataValue

instance (p : RecParams) (j : ℕ) : Decidable (sentinelAt p j) := by
  unfold sentinelAt; infer_instance

/-- The positions below `n` carrying a non-sentinel sample. -/
def keptList (p : RecParams) (n : ℕ) : List ℕ :=
  (List.range n).filter (fun j => decide (¬ sentinelAt p j))

/-- The positions below `n` carrying a non-sentinel sample whose
tile-relative frame `j + startFrame` lies in the initial time range. -/
def keptInRange (p : RecParams) (n : ℕ) : List ℕ :=
  (List.range n).filter (fun j => decide (¬ sentinelAt p j ∧ inRangeAt p j))

/-- The transformed sample at position `j` as a rational (meaningful at
in-bounds positions). -/
def tvalQ (p : RecParams) (j : ℕ) : ℚ :=
  ((p.getAt j).getD 0 : ℚ) * p.scale - p.offset

/-- The aggregate the source accumulates: the sum of the transformed
non-sentinel samples whose position satisfies the in-range test. -/
def aggSumQ (p : RecParams) (n : ℕ) : ℚ :=
  ((keptInRange p n).map (tvalQ p)).sum

/-- The first `n` iterations of the record's value loop. -/
def loopN (p : RecParams) (n : ℕ) (s : SubState) : SubState :=
  (List.range n).foldl (stepJ p) s

/-- The positions claim C1 says should be aggregated: non-sentinel
samples whose frame `startFrame + floor(j / bandsPerFrame)` lies in the
half-open range (this follows the claim's words, for comparison with
the source's `keptInRange`). -/
def c1ClaimedKept (p : RecParams) (n : ℕ) : List ℕ :=
  (List.range n).filter (fun j => decide (¬ sentinelAt p j ∧
    (p.timeRangeStartFrame ≤ p.startFrame + (j : ℤ).fdiv p.sublayers ∧
      p.startFrame + (j : ℤ).fdiv p.sublayers < p.timeRangeEndFrame)))

/-- The aggregate claim C1 describes, built from `c1ClaimedKept`. -/
def c1ClaimedSum (p : RecParams) (n : ℕ) : ℚ :=
  ((c1ClaimedKept p n).map (tvalQ p)).sum

/-- A concrete interval configuration for witnesses: instants and
timestamps are the frame indices themselves. -/
def testInterval : IntervalConfig :=
  { getIntervalFrame := fun d => d, getIntervalTimestamp := fun f => f }

/-- A concrete tile for witnesses. -/
def testTile : Tile := { bbox := (0, 0, 1, 1), x := 0, y := 0 }

/-- A concrete assembler configuration for witnesses. -/
def testCfg : AsmConfig :=
  { sublayersLength := 1
    sublayers := 1
    tileStartFrame := 0
    timeRangeStartFrame := 0
    timeRangeEndFrame := 2
    aggregationOperation := AggOp.sum
    scale := 1
    offset := 0
    noDataValue := 4294967295
    getIntervalTimestamp := fun f => f
    tileBBox := (0, 0, 1, 1)
    tileX := 0
    tileY := 0
    cols := 10
    rows := 10 }

/-- Concrete loader options for witnesses and counterexamples. -/
def testOptions (sublayers : ℤ) (range : Option (ℤ × ℤ)) (agg : Option AggOp) :
    Option FourwingsLoaderOptions :=
  some { fourwings := some {
      bufferedStartDate := 0
      interval := testInterval
      sublayers := sublayers
      initialTimeRange := range
      aggregationOperation := agg
      scale := none
      offset := none
      noDataValue := none
      tile := testTile
      cols := 10
      rows := 10
      buffersLength := none } }

section ListLemmas

variable {α : Type}

theorem getEntry_eq (l : List (Option α)) (i : ℕ) : getEntry l i = (l[i]?).getD none :=
  List.getD_eq_getElem?_getD l i none

theorem getEntry_replicate (n i : ℕ) :
    getEntry (List.replicate n (none : Option α)) i = none := by
  rw [getEntry_eq, List.getElem?_replicate]
  split <;> rfl

theorem getEntry_of_length_le (l : List (Option α)) (i : ℕ) (h : l.length ≤ i) :
    getEntry l i = none := by
  rw [getEntry_eq, List.getElem?_eq_none h]
  rfl

theorem jsSetAt_neg (l : List (Option α)) (i : ℤ) (v : α) (h : i < 0) :
    jsSetAt l i v = l := by
  unfold jsSetAt
  rw [if_pos h]

theorem getEntry_jsSetAt_self (l : List (Option α)) (i : ℤ) (v : α) (h : 0 ≤ i) :
    getEntry (jsSetAt l i v) i.toNat = some v := by
  unfold jsSetAt
  rw [if_neg (by omega)]
  by_cases h2 : i.toNat < l.length
  · rw [if_pos h2, getEntry_eq, List.getElem?_set_self h2]
    rfl
  · rw [if_neg h2, getEntry_eq]
    have hlen : (l ++ List.replicate (i.toNat - l.length) none).length ≤ i.toNat := by
      simp
      omega
    rw [List.getElem?_append_right hlen]
    simp only [List.length_append, List.length_replicate]
    have h3 : i.toNat - (l.length + (i.toNat - l.length)) = 0 := by omega
    rw [h3]
    rfl

theorem getEntry_jsSetAt_ne (l : List (Option α)) (i : ℤ) (v : α) (g : ℕ)
    (h : 0 ≤ i) (hne : g ≠ i.toNat) :
    getEntry (jsSetAt l i v) g = getEntry l g := by
  unfold jsSetAt
  rw [if_neg (by omega)]
  by_cases h2 : i.toNat < l.length
  · rw [if_pos h2, getEntry_eq, getEntry_eq, List.getElem?_set_ne (Ne.symm hne)]
  · rw [if_neg h2, getEntry_eq, getEntry_eq]
    by_cases h3 : g < l.length
    · rw [List.getElem?_append_left (by simp; omega), List.getElem?_append_left h3]
    · by_cases h4 : g < i.toNat
      · rw [List.getElem?_append_left (by simp; omega),
          List.getElem?_append_right (by omega), List.getElem?_replicate,
          if_pos (by omega), List.getElem?_eq_none (by omega)]
        rfl
      · have h5 : ([some v] : List (Option α)).length ≤
            g - (l ++ List.replicate (i.toNat - l.length) none).length := by
          simp
          omega
        have h6 : l.length ≤ g := by omega
        rw [List.getElem?_append_right (by simp; omega), List.getElem?_eq_none h5,
          List.getElem?_eq_none h6]

theorem jsSetAt_length (l : List (Option α)) (i : ℤ) (v : α)
    (h : 0 ≤ i) (h2 : i.toNat < l.length) :
    (jsSetAt l i v).length = l.length := by
  unfold jsSetAt
  rw [if_neg (by omega), if_pos h2, List.length_set]

theorem jsSetAt_isSome (l : List (Option α)) (i : ℤ) (v : α) :
    ∃ arr, jsSetAt l i v = arr := ⟨_, rfl⟩

theorem getEntry_setEntry_ne (l : List (Option α)) (i g : ℕ) (v : Option α)
    (hne : g ≠ i) : getEntry (setEntry l i v) g = getEntry l g := by
  unfold setEntry
  rw [getEntry_eq, getEntry_eq, List.getElem?_set_ne (Ne.symm hne)]

theorem getEntry_setEntry_self (l : List (Option α)) (i : ℕ) (v : Option α)
    (h : i < l.length) : getEntry (setEntry l i v) i = v := by
  unfold setEntry
  rw [getEntry_eq, List.getElem?_set_self h]
  rfl

theorem getEntry_setEntry_none (l : List (Option α)) (i : ℕ) :
    getEntry (setEntry l i none) i = none := by
  by_cases h : i < l.length
  · exact getEntry_setEntry_self l i none h
  · unfold setEntry
    rw [List.set_eq_of_length_le (by omega)]
    exact getEntry_of_length_le l i (by omega)

/-- Floor division of a natural by a positive integer is the natural
division by its absolute value. -/
theorem fdiv_natCast (j : ℕ) (b : ℤ) (hb : 0 < b) :
    (j : ℤ).fdiv b = ((j / b.toNat : ℕ) : ℤ) := by
  have h1 : ((j / b.toNat : ℕ) : ℤ) = (j : ℤ) / ((b.toNat : ℕ) : ℤ) := Int.natCast_div _ _
  rw [Int.fdiv_eq_ediv _ hb.le, h1, Int.toNat_of_nonneg hb.le]

theorem fdiv_toNat (j : ℕ) (b : ℤ) (hb : 0 < b) :
    ((j : ℤ).fdiv b).toNat = j / b.toNat := by
  rw [fdiv_natCast j b hb]
  exact Int.toNat_natCast _

theorem fdiv_nonneg' (j : ℕ) (b : ℤ) (hb : 0 < b) : 0 ≤ (j : ℤ).fdiv b := by
  rw [fdiv_natCast j b hb]
  positivity

theorem fdiv_toNat_le (j : ℕ) (b : ℤ) (hb : 0 < b) :
    ((j : ℤ).fdiv b).toNat ≤ j := by
  rw [fdiv_toNat j b hb]
  exact Nat.div_le_self _ _

end ListLemmas

section LoopLemmas

theorem loopN_zero (p : RecParams) (s : SubState) : loopN p 0 s = s := rfl

theorem loopN_succ (p : RecParams) (n : ℕ) (s : SubState) :
    loopN p (n + 1) s = stepJ p (loopN p n s) n := by
  unfold loopN
  rw [List.range_succ, List.foldl_append]
  rfl

theorem processLoop_eq_loopN (p : RecParams) (s : SubState) :
    processLoop p s = loopN p p.ncv s := rfl

theorem stepJ_sentinel (p : RecParams) (s : SubState) (j : ℕ) (h : sentinelAt p j) :
    stepJ p s j = s := by
  unfold sentinelAt at h
  simp only [stepJ]
  rw [if_pos h]

theorem stepJ_kept_none (p : RecParams) (s : SubState) (j : ℕ)
    (hk : ¬ sentinelAt p j) (hv : s.values = none) :
    stepJ p s j =
      (if inRangeAt p j then
        { values := some (jsSetAt (List.replicate p.ncv none) ((j : ℤ).fdiv p.sublayers)
            (transform (p.getAt j) p.scale p.offset))
          dates := some (jsSetAt (List.replicate p.ncv none) ((j : ℤ).fdiv p.sublayers)
            (p.getIntervalTimestamp (p.startFrame + p.tileStartFrame + j)))
          startOffset := some p.startFrame
          initialValue := some (jsAddOpt (some (JSNum.num 0))
            (transform (p.getAt j) p.scale p.offset))
          count := s.count + 1 }
      else
        { values := some (jsSetAt (List.replicate p.ncv none) ((j : ℤ).fdiv p.sublayers)
            (transform (p.getAt j) p.scale p.offset))
          dates := some (jsSetAt (List.replicate p.ncv none) ((j : ℤ).fdiv p.sublayers)
            (p.getIntervalTimestamp (p.startFrame + p.tileStartFrame + j)))
          startOffset := some p.startFrame
          initialValue := some (JSNum.num 0)
          count := s.count } : SubState) := by
  unfold sentinelAt at hk
  simp only [stepJ]
  rw [if_neg hk, if_pos hv]
  by_cases hr : inRangeAt p j
  · rw [if_pos hr, if_pos hr]
    rfl
  · rw [if_neg hr, if_neg hr]
    rfl

theorem stepJ_kept_some (p : RecParams) (s : SubState) (j : ℕ)
    (varr : List (Option JSNum)) (darr : List (Option ℤ))
    (hk : ¬ sentinelAt p j) (hv : s.values = some varr) (hd : s.dates = some darr) :
    stepJ p s j =
      (if inRangeAt p j then
        { values := some (jsSetAt varr ((j : ℤ).fdiv p.sublayers)
            (transform (p.getAt j) p.scale p.offset))
          dates := some (jsSetAt darr ((j : ℤ).fdiv p.sublayers)
            (p.getIntervalTimestamp (p.startFrame + p.tileStartFrame + j)))
          startOffset := s.startOffset
          initialValue := some (jsAddOpt s.initialValue
            (transform (p.getAt j) p.scale p.offset))
          count := s.count + 1 }
      else
        { values := some (jsSetAt varr ((j : ℤ).fdiv p.sublayers)
            (transform (p.getAt j) p.scale p.offset))
          dates := some (jsSetAt darr ((j : ℤ).fdiv p.sublayers)
            (p.getIntervalTimestamp (p.startFrame + p.tileStartFrame + j)))
          startOffset := s.startOffset
          initialValue := s.initialValue
          count := s.count } : SubState) := by
  unfold sentinelAt at hk
  simp only [stepJ]
  rw [if_neg hk]
  have hvne : ¬ (s.values = none) := by rw [hv]; simp
  rw [if_neg hvne, hv, hd]
  by_cases hr : inRangeAt p j
  · rw [if_pos hr, if_pos hr]
    rfl
  · rw [if_neg hr, if_neg hr]
    rfl

theorem keptList_zero (p : RecParams) : keptList p 0 = [] := rfl

theorem keptList_succ (p : RecParams) (n : ℕ) :
    keptList p (n + 1) = keptList p n ++ (if sentinelAt p n then [] else [n]) := by
  unfold keptList
  rw [List.range_succ, List.filter_append]
  congr 1
  by_cases h : sentinelAt p n <;> simp [h]

theorem keptInRange_succ (p : RecParams) (n : ℕ) :
    keptInRange p (n + 1) =
      keptInRange p n ++ (if ¬ sentinelAt p n ∧ inRangeAt p n then [n] else []) := by
  unfold keptInRange
  rw [List.range_succ, List.filter_append]
  congr 1
  by_cases h1 : sentinelAt p n <;> by_cases h2 : inRangeAt p n <;> simp [h1, h2]

theorem keptList_eq_nil_iff (p : RecParams) (n : ℕ) :
    keptList p n = [] ↔ ∀ j, j < n → sentinelAt p j := by
  unfold keptList
  rw [List.filter_eq_nil_iff]
  constructor
  · intro h j hj
    have := h j (List.mem_range.mpr hj)
    simpa using this
  · intro h j hj
    have := h j (List.mem_range.mp hj)
    simpa using this

theorem keptInRange_eq_nil_of_all_sentinel (p : RecParams) (n : ℕ)
    (h : ∀ j, j < n → sentinelAt p j) : keptInRange p n = [] := by
  unfold keptInRange
  rw [List.filter_eq_nil_iff]
  intro j hj
  have := h j (List.mem_range.mp hj)
  simp [this]

theorem aggSumQ_zero (p : RecParams) : aggSumQ p 0 = 0 := rfl

theorem aggSumQ_succ (p : RecParams) (n : ℕ) :
    aggSumQ p (n + 1) =
      aggSumQ p n + (if ¬ sentinelAt p n ∧ inRangeAt p n then tvalQ p n else 0) := by
  unfold aggSumQ
  rw [keptInRange_succ, List.map_append, List.sum_append]
  congr 1
  by_cases h : ¬ sentinelAt p n ∧ inRangeAt p n <;> simp [h]

theorem keptInRange_length_succ (p : RecParams) (n : ℕ) :
    (keptInRange p (n + 1)).length =
      (keptInRange p n).length + (if ¬ sentinelAt p n ∧ inRangeAt p n then 1 else 0) := by
  rw [keptInRange_succ, List.length_append]
  congr 1
  by_cases h : ¬ sentinelAt p n ∧ inRangeAt p n <;> simp [h]

theorem transform_eq_num (p : RecParams) (j : ℕ) (v : ℕ) (h : p.getAt j = some v) :
    transform (p.getAt j) p.scale p.offset = JSNum.num (tvalQ p j) := by
  unfold transform tvalQ
  rw [h]
  simp

theorem jsAddOpt_num_num (a b : ℚ) :
    jsAddOpt (some (JSNum.num a)) (JSNum.num b) = JSNum.num (a + b) := rfl

/-- Characterization of the value loop started on untouched sublayer
slots: if every position is the sentinel, nothing changes; otherwise
the arrays are allocated, `startOffsets` is stamped with the record's
`startFrame`, the accumulated initial value is the sum of the
transformed in-range non-sentinel samples, and the counter is their
number. -/
theorem loopN_fresh_char (p : RecParams) (n : ℕ)
    (htot : ∀ j, j < n → (p.getAt j).isSome) :
    (keptList p n = [] ∧ loopN p n freshSub = freshSub) ∨
    (keptList p n ≠ [] ∧ ∃ varr darr,
      loopN p n freshSub =
        { values := some varr
          dates := some darr
          startOffset := some p.startFrame
          initialValue := some (JSNum.num (aggSumQ p n))
          count := (keptInRange p n).length }) := by
  induction n with
  | zero => exact Or.inl ⟨rfl, rfl⟩
  | succ n ih =>
    have htot' : ∀ j, j < n → (p.getAt j).isSome := fun j hj => htot j (by omega)
    rcases ih htot' with ⟨hkl, heq⟩ | ⟨hkl, varr, darr, heq⟩
    · by_cases hs : sentinelAt p n
      · left
        refine ⟨?_, ?_⟩
        · rw [keptList_succ, hkl, if_pos hs]
          rfl
        · rw [loopN_succ, heq, stepJ_sentinel p _ n hs]
      · right
        have hall : ∀ j, j < n → sentinelAt p j := (keptList_eq_nil_iff p n).mp hkl
        have hkir : keptInRange p n = [] := keptInRange_eq_nil_of_all_sentinel p n hall
        have hagg0 : aggSumQ p n = 0 := by
          unfold aggSumQ
          rw [hkir]
          rfl
        obtain ⟨v, hv⟩ := Option.isSome_iff_exists.mp (htot n (by omega))
        refine ⟨?_, ?_⟩
        · rw [keptList_succ, hkl, if_neg hs]
          simp
        · rw [loopN_succ, heq, stepJ_kept_none p freshSub n hs rfl]
          by_cases hr : inRangeAt p n
          · rw [if_pos hr]
            refine ⟨jsSetAt (List.replicate p.ncv none) ((n : ℤ).fdiv p.sublayers)
                (transform (p.getAt n) p.scale p.offset),
              jsSetAt (List.replicate p.ncv none) ((n : ℤ).fdiv p.sublayers)
                (p.getIntervalTimestamp (p.startFrame + p.tileStartFrame + n)), ?_⟩
            simp [hs, hr, transform_eq_num p n v hv, jsAddOpt_num_num, aggSumQ_succ,
              keptInRange_length_succ, hagg0, hkir, freshSub]
          · rw [if_neg hr]
            refine ⟨jsSetAt (List.replicate p.ncv none) ((n : ℤ).fdiv p.sublayers)
                (transform (p.getAt n) p.scale p.offset),
              jsSetAt (List.replicate p.ncv none) ((n : ℤ).fdiv p.sublayers)
                (p.getIntervalTimestamp (p.startFrame + p.tileStartFrame + n)), ?_⟩
            simp [hs, hr, aggSumQ_succ, keptInRange_length_succ, hagg0, hkir, freshSub]
    · by_cases hs : sentinelAt p n
      · right
        refine ⟨?_, varr, darr, ?_⟩
        · rw [keptList_succ]
          simp [hkl]
        · rw [loopN_succ, heq, stepJ_sentinel p _ n hs]
          simp [hs, aggSumQ_succ, keptInRange_length_succ]
      · right
        obtain ⟨v, hv⟩ := Option.isSome_iff_exists.mp (htot n (by omega))
        refine ⟨?_, ?_⟩
        · rw [keptList_succ]
          simp [hkl]
        · rw [loopN_succ, heq, stepJ_kept_some p _ n varr darr hs rfl rfl]
          by_cases hr : inRangeAt p n
          · rw [if_pos hr]
            refine ⟨jsSetAt varr ((n : ℤ).fdiv p.sublayers)
                (transform (p.getAt n) p.scale p.offset),
              jsSetAt darr ((n : ℤ).fdiv p.sublayers)
                (p.getIntervalTimestamp (p.startFrame + p.tileStartFrame + n)), ?_⟩
            simp [hs, hr, transform_eq_num p n v hv, jsAddOpt_num_num, aggSumQ_succ,
              keptInRange_length_succ]
          · rw [if_neg hr]
            refine ⟨jsSetAt varr ((n : ℤ).fdiv p.sublayers)
                (transform (p.getAt n) p.scale p.offset),
              jsSetAt darr ((n : ℤ).fdiv p.sublayers)
                (p.getIntervalTimestamp (p.startFrame + p.tileStartFrame + n)), ?_⟩
            simp [hs, hr, aggSumQ_succ, keptInRange_length_succ]

/-- Shape of the loop result from untouched slots, with no assumption on
reads: all slots stay untouched exactly when every position is the
sentinel; otherwise arrays and the start offset are populated. -/
theorem loopN_fresh_shape (p : RecParams) (n : ℕ) :
    (loopN p n freshSub = freshSub ∧ keptList p n = []) ∨
    ((∃ a, (loopN p n freshSub).values = some a) ∧
      (∃ a, (loopN p n freshSub).dates = some a) ∧
      (loopN p n freshSub).startOffset = some p.startFrame ∧
      (∃ q, (loopN p n freshSub).initialValue = some q) ∧
      keptList p n ≠ []) := by
  induction n with
  | zero => exact Or.inl ⟨rfl, rfl⟩
  | succ n ih =>
    by_cases hs : sentinelAt p n
    · rw [loopN_succ, stepJ_sentinel p _ n hs, keptList_succ, if_pos hs, List.append_nil]
      exact ih
    · right
      have hne : keptList p (n + 1) ≠ [] := by
        rw [keptList_succ, if_neg hs]
        simp
      rcases ih with ⟨h1, _⟩ | ⟨⟨va, hva⟩, ⟨da, hda⟩, hso, ⟨q, hiv⟩, _⟩
      · rw [loopN_succ, h1, stepJ_kept_none p freshSub n hs rfl]
        by_cases hr : inRangeAt p n
        · rw [if_pos hr]
          exact ⟨⟨_, rfl⟩, ⟨_, rfl⟩, rfl, ⟨_, rfl⟩, hne⟩
        · rw [if_neg hr]
          exact ⟨⟨_, rfl⟩, ⟨_, rfl⟩, rfl, ⟨_, rfl⟩, hne⟩
      · rw [loopN_succ, stepJ_kept_some p _ n va da hs hva hda]
        by_cases hr : inRangeAt p n
        · rw [if_pos hr]
          exact ⟨⟨_, rfl⟩, ⟨_, rfl⟩, hso, ⟨_, rfl⟩, hne⟩
        · rw [if_neg hr]
          exact ⟨⟨_, rfl⟩, ⟨_, rfl⟩, hso, ⟨_, hiv⟩, hne⟩

/-- Both dense arrays, once allocated, keep length `numCellValues`
throughout the loop (every write lands below that length when
`bandsPerFrame` is positive). -/
theorem loopN_fresh_length (p : RecParams) (hb : 0 < p.sublayers) (n : ℕ) (hn : n ≤ p.ncv) :
    ((loopN p n freshSub).values = none ∧ (loopN p n freshSub).dates = none) ∨
    (∃ varr darr, (loopN p n freshSub).values = some varr ∧
      (loopN p n freshSub).dates = some darr ∧
      varr.length = p.ncv ∧ darr.length = p.ncv) := by
  induction n with
  | zero => exact Or.inl ⟨rfl, rfl⟩
  | succ n ih =>
    have hn' : n ≤ p.ncv := by omega
    have hslot : ((n : ℤ).fdiv p.sublayers).toNat < p.ncv := by
      have := fdiv_toNat_le n p.sublayers hb
      omega
    have hsetv : ∀ (v : JSNum),
        (jsSetAt (List.replicate p.ncv (none : Option JSNum))
          ((n : ℤ).fdiv p.sublayers) v).length = p.ncv := by
      intro v
      rw [jsSetAt_length _ _ _ (fdiv_nonneg' n _ hb)
        (by rw [List.length_replicate]; exact hslot), List.length_replicate]
    have hsetd : ∀ (v : ℤ),
        (jsSetAt (List.replicate p.ncv (none : Option ℤ))
          ((n : ℤ).fdiv p.sublayers) v).length = p.ncv := by
      intro v
      rw [jsSetAt_length _ _ _ (fdiv_nonneg' n _ hb)
        (by rw [List.length_replicate]; exact hslot), List.length_replicate]
    by_cases hs : sentinelAt p n
    · rw [loopN_succ, stepJ_sentinel p _ n hs]
      exact ih hn'
    · rcases ih hn' with ⟨h1, _⟩ | ⟨va, da, hva, hda, hlv, hld⟩
      · rw [loopN_succ, stepJ_kept_none p _ n hs h1]
        right
        by_cases hr : inRangeAt p n
        · rw [if_pos hr]
          exact ⟨_, _, rfl, rfl, hsetv _, hsetd _⟩
        · rw [if_neg hr]
          exact ⟨_, _, rfl, rfl, hsetv _, hsetd _⟩
      · rw [loopN_succ, stepJ_kept_some p _ n va da hs hva hda]
        right
        have hsetv' : ∀ (v : JSNum),
            (jsSetAt va ((n : ℤ).fdiv p.sublayers) v).length = p.ncv := by
          intro v
          rw [jsSetAt_length _ _ _ (fdiv_nonneg' n _ hb) (by omega), hlv]
        have hsetd' : ∀ (v : ℤ),
            (jsSetAt da ((n : ℤ).fdiv p.sublayers) v).length = p.ncv := by
          intro v
          rw [jsSetAt_length _ _ _ (fdiv_nonneg' n _ hb) (by omega), hld]
        by_cases hr : inRangeAt p n
        · rw [if_pos hr]
          exact ⟨_, _, rfl, rfl, hsetv' _, hsetd' _⟩
        · rw [if_neg hr]
          exact ⟨_, _, rfl, rfl, hsetv' _, hsetd' _⟩

/-- After the loop, the slot of the last kept position of a band group
holds that sample's transformed value, and the date slot holds the
timestamp of `startFrame + tileStartFrame + j` (raw position). -/
theorem loopN_slot_write (p : RecParams) (hb : 0 < p.sublayers) (n : ℕ) (j0 : ℕ)
    (hj0 : j0 < n) (hkept : ¬ sentinelAt p j0)
    (hlast : ∀ j', j0 < j' → j' < n →
      (j' : ℤ).fdiv p.sublayers = (j0 : ℤ).fdiv p.sublayers → sentinelAt p j') :
    ∃ varr darr, (loopN p n freshSub).values = some varr ∧
      (loopN p n freshSub).dates = some darr ∧
      getEntry varr ((j0 : ℤ).fdiv p.sublayers).toNat =
        some (transform (p.getAt j0) p.scale p.offset) ∧
      getEntry darr ((j0 : ℤ).fdiv p.sublayers).toNat =
        some (p.getIntervalTimestamp (p.startFrame + p.tileStartFrame + j0)) := by
  induction n with
  | zero => omega
  | succ n ih =>
    by_cases hj : j0 = n
    · subst hj
      rcases loopN_fresh_shape p j0 with ⟨h1, _⟩ | ⟨⟨va, hva⟩, ⟨da, hda⟩, _, _, _⟩
      · rw [loopN_succ, h1, stepJ_kept_none p _ j0 hkept rfl]
        by_cases hr : inRangeAt p j0
        · rw [if_pos hr]
          exact ⟨_, _, rfl, rfl,
            getEntry_jsSetAt_self _ _ _ (fdiv_nonneg' j0 _ hb),
            getEntry_jsSetAt_self _ _ _ (fdiv_nonneg' j0 _ hb)⟩
        · rw [if_neg hr]
          exact ⟨_, _, rfl, rfl,
            getEntry_jsSetAt_self _ _ _ (fdiv_nonneg' j0 _ hb),
            getEntry_jsSetAt_self _ _ _ (fdiv_nonneg' j0 _ hb)⟩
      · rw [loopN_succ, stepJ_kept_some p _ j0 va da hkept hva hda]
        by_cases hr : inRangeAt p j0
        · rw [if_pos hr]
          exact ⟨_, _, rfl, rfl,
            getEntry_jsSetAt_self _ _ _ (fdiv_nonneg' j0 _ hb),
            getEntry_jsSetAt_self _ _ _ (fdiv_nonneg' j0 _ hb)⟩
        · rw [if_neg hr]
          exact ⟨_, _, rfl, rfl,
            getEntry_jsSetAt_self _ _ _ (fdiv_nonneg' j0 _ hb),
            getEntry_jsSetAt_self _ _ _ (fdiv_nonneg' j0 _ hb)⟩
    · have hj0n : j0 < n := by omega
      have hlast' : ∀ j', j0 < j' → j' < n →
          (j' : ℤ).fdiv p.sublayers = (j0 : ℤ).fdiv p.sublayers → sentinelAt p j' :=
        fun j' h1 h2 h3 => hlast j' h1 (by omega) h3
      obtain ⟨va, da, hva, hda, hev, hed⟩ := ih hj0n hlast'
      by_cases hs : sentinelAt p n
      · rw [loopN_succ, stepJ_sentinel p _ n hs]
        exact ⟨va, da, hva, hda, hev, hed⟩
      · have hslotne : ((j0 : ℤ).fdiv p.sublayers).toNat ≠ ((n : ℤ).fdiv p.sublayers).toNat := by
          intro hEq
          have : (n : ℤ).fdiv p.sublayers = (j0 : ℤ).fdiv p.sublayers := by
            have h1 := fdiv_nonneg' j0 p.sublayers hb
            have h2 := fdiv_nonneg' n p.sublayers hb
            omega
          exact hs (hlast n (by omega) (by omega) this)
        rw [loopN_succ, stepJ_kept_some p _ n va da hs hva hda]
        by_cases hr : inRangeAt p n
        · rw [if_pos hr]
          refine ⟨_, _, rfl, rfl, ?_, ?_⟩
          · rw [getEntry_jsSetAt_ne _ _ _ _ (fdiv_nonneg' n _ hb) hslotne]
            exact hev
          · rw [getEntry_jsSetAt_ne _ _ _ _ (fdiv_nonneg' n _ hb) hslotne]
            exact hed
        · rw [if_neg hr]
          refine ⟨_, _, rfl, rfl, ?_, ?_⟩
          · rw [getEntry_jsSetAt_ne _ _ _ _ (fdiv_nonneg' n _ hb) hslotne]
            exact hev
          · rw [getEntry_jsSetAt_ne _ _ _ _ (fdiv_nonneg' n _ hb) hslotne]
            exact hed

/-- A band group consisting only of sentinel samples leaves its dense
slot unset (a gap), whether or not the arrays were allocated by other
groups. -/
theorem loopN_slot_none (p : RecParams) (hb : 0 < p.sublayers) (n : ℕ) (g : ℕ)
    (hg : ∀ j, j < n → ((j : ℤ).fdiv p.sublayers).toNat = g → sentinelAt p j) :
    ((loopN p n freshSub).values = none ∧ (loopN p n freshSub).dates = none) ∨
    (∃ varr darr, (loopN p n freshSub).values = some varr ∧
      (loopN p n freshSub).dates = some darr ∧
      getEntry varr g = none ∧ getEntry darr g = none) := by
  induction n with
  | zero => exact Or.inl ⟨rfl, rfl⟩
  | succ n ih =>
    have hg' : ∀ j, j < n → ((j : ℤ).fdiv p.sublayers).toNat = g → sentinelAt p j :=
      fun j h1 h2 => hg j (by omega) h2
    by_cases hs : sentinelAt p n
    · rw [loopN_succ, stepJ_sentinel p _ n hs]
      exact ih hg'
    · have hslotne : g ≠ ((n : ℤ).fdiv p.sublayers).toNat := by
        intro hEq
        exact hs (hg n (by omega) hEq.symm)
      rcases ih hg' with ⟨h1, _⟩ | ⟨va, da, hva, hda, hev, hed⟩
      · rw [loopN_succ, stepJ_kept_none p _ n hs h1]
        right
        by_cases hr : inRangeAt p n
        · rw [if_pos hr]
          refine ⟨_, _, rfl, rfl, ?_, ?_⟩
          · rw [getEntry_jsSetAt_ne _ _ _ _ (fdiv_nonneg' n _ hb) hslotne]
            exact getEntry_replicate _ _
          · rw [getEntry_jsSetAt_ne _ _ _ _ (fdiv_nonneg' n _ hb) hslotne]
            exact getEntry_replicate _ _
        · rw [if_neg hr]
          refine ⟨_, _, rfl, rfl, ?_, ?_⟩
          · rw [getEntry_jsSetAt_ne _ _ _ _ (fdiv_nonneg' n _ hb) hslotne]
            exact getEntry_replicate _ _
          · rw [getEntry_jsSetAt_ne _ _ _ _ (fdiv_nonneg' n _ hb) hslotne]
            exact getEntry_replicate _ _
      · rw [loopN_succ, stepJ_kept_some p _ n va da hs hva hda]
        right
        by_cases hr : inRangeAt p n
        · rw [if_pos hr]
          refine ⟨_, _, rfl, rfl, ?_, ?_⟩
          · rw [getEntry_jsSetAt_ne _ _ _ _ (fdiv_nonneg' n _ hb) hslotne]
            exact hev
          · rw [getEntry_jsSetAt_ne _ _ _ _ (fdiv_nonneg' n _ hb) hslotne]
            exact hed
        · rw [if_neg hr]
          refine ⟨_, _, rfl, rfl, ?_, ?_⟩
          · rw [getEntry_jsSetAt_ne _ _ _ _ (fdiv_nonneg' n _ hb) hslotne]
            exact hev
          · rw [getEntry_jsSetAt_ne _ _ _ _ (fdiv_nonneg' n _ hb) hslotne]
            exact hed

end LoopLemmas

section MapLemmas

theorem updateFeat_keys (feats : List (ℕ × FourwingsFeature)) (k : ℕ)
    (g : FourwingsFeature → FourwingsFeature) :
    (updateFeat feats k g).map Prod.fst = feats.map Prod.fst := by
  unfold updateFeat
  rw [List.map_map]
  apply List.map_congr_left
  intro e _
  by_cases h : e.1 = k <;> simp [h]

theorem findFeat_eq_none_iff (feats : List (ℕ × FourwingsFeature)) (k : ℕ) :
    findFeat feats k = none ↔ k ∉ feats.map Prod.fst := by
  unfold findFeat
  rw [Option.map_eq_none', List.find?_eq_none]
  simp only [decide_eq_true_eq, List.mem_map, not_exists, Prod.forall]
  constructor
  · intro h1 a b hab
    exact h1 a b hab.1 hab.2
  · intro h1 a b hab hak
    exact h1 a b ⟨hab, hak⟩

theorem findFeat_updateFeat_self (feats : List (ℕ × FourwingsFeature)) (k : ℕ)
    (g : FourwingsFeature → FourwingsFeature) :
    findFeat (updateFeat feats k g) k = (findFeat feats k).map g := by
  induction feats with
  | nil => rfl
  | cons e es ih =>
    by_cases h : e.1 = k
    · simp [updateFeat, findFeat, List.find?, h]
    · simp only [updateFeat, List.map_cons, if_neg h] at *
      simp only [findFeat, List.find?] at *
      rw [show (decide (e.1 = k)) = false by simp [h]]
      simpa [updateFeat] using ih

theorem findFeat_updateFeat_ne (feats : List (ℕ × FourwingsFeature)) (k k' : ℕ)
    (g : FourwingsFeature → FourwingsFeature) (h : k' ≠ k) :
    findFeat (updateFeat feats k g) k' = findFeat feats k' := by
  induction feats with
  | nil => rfl
  | cons e es ih =>
    by_cases he : e.1 = k
    · have : ¬ (e.1 = k') := by omega
      simp only [updateFeat, List.map_cons, if_pos he] at *
      simp only [findFeat, List.find?] at *
      rw [show (decide (e.1 = k')) = false by simp [this]]
      simpa [updateFeat] using ih
    · by_cases he' : e.1 = k'
      · simp [updateFeat, findFeat, List.find?, he, he', h]
      · simp only [updateFeat, List.map_cons, if_neg he] at *
        simp only [findFeat, List.find?] at *
        rw [show (decide (e.1 = k')) = false by simp [he']]
        simpa [updateFeat] using ih

theorem findFeat_append_single_self (feats : List (ℕ × FourwingsFeature)) (k : ℕ)
    (f : FourwingsFeature) (h : findFeat feats k = none) :
    findFeat (feats ++ [(k, f)]) k = some f := by
  unfold findFeat at *
  rw [List.find?_append]
  have h1 : feats.find? (fun e => e.1 = k) = none := by
    cases hf : feats.find? (fun e => e.1 = k)
    · rfl
    · rw [hf] at h
      simp at h
  rw [h1]
  simp [List.find?]

theorem findFeat_append_single_ne (feats : List (ℕ × FourwingsFeature)) (k k' : ℕ)
    (f : FourwingsFeature) (h : k' ≠ k) :
    findFeat (feats ++ [(k, f)]) k' = findFeat feats k' := by
  unfold findFeat
  rw [List.find?_append]
  have h1 : [(k, f)].find? (fun e => e.1 = k') = none := by
    rw [List.find?_eq_none]
    intro x hx
    have hxe : x = (k, f) := by simpa using hx
    subst hxe
    simp
    omega
  rw [h1, Option.or_none]

theorem writeBackSub_values (f : FourwingsFeature) (sub : ℕ) (s : SubState) :
    (writeBackSub f sub s).properties.values =
      setEntry f.properties.values sub s.values := rfl

theorem writeBackSub_dates (f : FourwingsFeature) (sub : ℕ) (s : SubState) :
    (writeBackSub f sub s).properties.dates =
      setEntry f.properties.dates sub s.dates := rfl

theorem writeBackSub_startOffsets (f : FourwingsFeature) (sub : ℕ) (s : SubState) :
    (writeBackSub f sub s).properties.startOffsets =
      setEntry f.properties.startOffsets sub s.startOffset := rfl

theorem writeBackSub_initialValues (f : FourwingsFeature) (sub : ℕ) (s : SubState) :
    (writeBackSub f sub s).properties.initialValues =
      setEntry f.properties.initialValues sub s.initialValue := rfl

theorem writeBackSub_geometry (f : FourwingsFeature) (sub : ℕ) (s : SubState) :
    (writeBackSub f sub s).geometry = f.geometry := rfl

theorem writeBackSub_cellNum (f : FourwingsFeature) (sub : ℕ) (s : SubState) :
    (writeBackSub f sub s).properties.cellNum = f.properties.cellNum := rfl

theorem writeBackSub_cellId (f : FourwingsFeature) (sub : ℕ) (s : SubState) :
    (writeBackSub f sub s).properties.cellId = f.properties.cellId := rfl

theorem writeBackSub_col (f : FourwingsFeature) (sub : ℕ) (s : SubState) :
    (writeBackSub f sub s).properties.col = f.properties.col := rfl

theorem writeBackSub_row (f : FourwingsFeature) (sub : ℕ) (s : SubState) :
    (writeBackSub f sub s).properties.row = f.properties.row := rfl

theorem mem_updateFeat (feats : List (ℕ × FourwingsFeature)) (k : ℕ)
    (g : FourwingsFeature → FourwingsFeature) (e' : ℕ × FourwingsFeature)
    (h : e' ∈ updateFeat feats k g) :
    ∃ e, e ∈ feats ∧ ((e.1 ≠ k ∧ e' = e) ∨ (e.1 = k ∧ e' = (e.1, g e.2))) := by
  unfold updateFeat at h
  obtain ⟨e, he, hEq⟩ := List.mem_map.mp h
  by_cases hk : e.1 = k
  · exact ⟨e, he, Or.inr ⟨hk, by rw [← hEq]; simp [hk]⟩⟩
  · exact ⟨e, he, Or.inl ⟨hk, by rw [← hEq]; simp [hk]⟩⟩

/-- The record handler keeps the key list duplicate-free: a feature is
appended only after the presence check fails. -/
theorem applyRecord_keys_nodup (cfg : AsmConfig) (sub cn : ℕ) (sf ef : ℤ)
    (g : ℕ → Option ℕ) (feats : List (ℕ × FourwingsFeature))
    (h : (feats.map Prod.fst).Nodup) :
    ((applyRecord cfg sub cn sf ef g feats).map Prod.fst).Nodup := by
  unfold applyRecord
  rw [updateFeat_keys]
  by_cases hf : (findFeat feats cn).isSome
  · rw [if_pos hf]
    exact h
  · rw [if_neg hf]
    have hnone : findFeat feats cn = none := by
      cases hx : findFeat feats cn
      · rfl
      · rw [hx] at hf
        simp at hf
    have hnotmem : cn ∉ feats.map Prod.fst := (findFeat_eq_none_iff feats cn).mp hnone
    rw [List.map_append]
    simp [List.nodup_append, h, hnotmem]

/-- Keys are stable under updates: membership of a key after a record is
membership before or equality with the record's cell. -/
theorem applyRecord_keys (cfg : AsmConfig) (sub cn : ℕ) (sf ef : ℤ)
    (g : ℕ → Option ℕ) (feats : List (ℕ × FourwingsFeature)) :
    (applyRecord cfg sub cn sf ef g feats).map Prod.fst = feats.map Prod.fst ∨
    (applyRecord cfg sub cn sf ef g feats).map Prod.fst = feats.map Prod.fst ++ [cn] := by
  unfold applyRecord
  rw [updateFeat_keys]
  by_cases hf : (findFeat feats cn).isSome
  · rw [if_pos hf]
    exact Or.inl rfl
  · rw [if_neg hf]
    rw [List.map_append]
    exact Or.inr rfl

/-- Per-feature invariants that creation establishes (for cell indices
satisfying `Q`) and write-back preserves survive the record handler. -/
theorem applyRecord_feature_inv (cfg : AsmConfig) (R : ℕ → FourwingsFeature → Prop)
    (Q : ℕ → Prop) (hmat : ∀ cn, Q cn → R cn (materializeFeature cfg cn))
    (hwb : ∀ k f s' s, R k f → R k (writeBackSub f s' s))
    (sub cn : ℕ) (sf ef : ℤ) (g : ℕ → Option ℕ)
    (feats : List (ℕ × FourwingsFeature)) (hQ : Q cn) (h : ∀ e ∈ feats, R e.1 e.2) :
    ∀ e ∈ applyRecord cfg sub cn sf ef g feats, R e.1 e.2 := by
  intro e' he'
  unfold applyRecord at he'
  obtain ⟨e, he, hcase⟩ := mem_updateFeat _ _ _ _ he'
  have hR : R e.1 e.2 := by
    by_cases hf : (findFeat feats cn).isSome
    · rw [if_pos hf] at he
      exact h e he
    · rw [if_neg hf] at he
      rcases List.mem_append.mp he with h1 | h1
      · exact h e h1
      · have : e = (cn, materializeFeature cfg cn) := by simpa using h1
        rw [this]
        exact hmat cn hQ
  rcases hcase with ⟨_, hEq⟩ | ⟨_, hEq⟩
  · rw [hEq]
    exact hR
  · rw [hEq]
    exact hwb _ _ _ _ hR

theorem applyRecord_find_new (cfg : AsmConfig) (sub cn : ℕ) (sf ef : ℤ)
    (g : ℕ → Option ℕ) (feats : List (ℕ × FourwingsFeature))
    (h : findFeat feats cn = none) :
    findFeat (applyRecord cfg sub cn sf ef g feats) cn =
      some (writeBackSub (materializeFeature cfg cn) sub
        (processRecordSub cfg.aggregationOperation
          (recParamsOf cfg sf g ((ef - sf + 1) * cfg.sublayers).toNat)
          (extractSub (materializeFeature cfg cn) sub))) := by
  unfold applyRecord
  rw [if_neg (by rw [h]; simp), findFeat_updateFeat_self,
    findFeat_append_single_self _ _ _ h]
  rfl

theorem applyRecord_find_existing (cfg : AsmConfig) (sub cn : ℕ) (sf ef : ℤ)
    (g : ℕ → Option ℕ) (feats : List (ℕ × FourwingsFeature)) (f : FourwingsFeature)
    (h : findFeat feats cn = some f) :
    findFeat (applyRecord cfg sub cn sf ef g feats) cn =
      some (writeBackSub f sub
        (processRecordSub cfg.aggregationOperation
          (recParamsOf cfg sf g ((ef - sf + 1) * cfg.sublayers).toNat)
          (extractSub f sub))) := by
  unfold applyRecord
  rw [if_pos (by rw [h]; rfl), findFeat_updateFeat_self, h]
  rfl

theorem applyRecord_find_other (cfg : AsmConfig) (sub cn : ℕ) (sf ef : ℤ)
    (g : ℕ → Option ℕ) (feats : List (ℕ × FourwingsFeature)) (k : ℕ) (h : k ≠ cn) :
    findFeat (applyRecord cfg sub cn sf ef g feats) k = findFeat feats k := by
  unfold applyRecord
  by_cases hf : (findFeat feats cn).isSome
  · rw [if_pos hf, findFeat_updateFeat_ne _ _ _ _ h]
  · rw [if_neg hf, findFeat_updateFeat_ne _ _ _ _ h,
      findFeat_append_single_ne _ _ _ _ h]

section Preservation

/-- Fold preservation of an invariant. -/
theorem foldl_preserves {α β : Type _} (P : β → Prop) (f : β → α → β) :
    ∀ (l : List α) (s : β), (∀ s a, a ∈ l → P s → P (f s a)) → P s → P (l.foldl f s)
  | [], _, _, hs => hs
  | a :: l, s, h, hs =>
    foldl_preserves P f l (f s a)
      (fun s' a' ha' => h s' a' (by simp [ha']))
      (h s a (by simp) hs)

/-- The sublayer scan preserves any invariant that every record
application preserves; `Q` constrains the cell indices the scan can
latch (the initial one and every stream value). -/
theorem scanSub_preserves (cfg : AsmConfig) (arr : List ℕ) (sub : ℕ)
    (P : List (ℕ × FourwingsFeature) → Prop) (Q : ℕ → Prop)
    (hP : ∀ cn sf ef g feats, Q cn → P feats → P (applyRecord cfg sub cn sf ef g feats))
    (harr : ∀ v ∈ arr, Q v) :
    ∀ (fuel i ic cn : ℕ) (sf : ℤ) (si : ℕ) (feats : List (ℕ × FourwingsFeature)),
      Q cn → P feats → P (scanSub cfg arr sub fuel i ic cn sf si feats) := by
  intro fuel
  induction fuel with
  | zero =>
    intro i ic cn sf si feats _ hPf
    exact hPf
  | succ fuel ih =>
    intro i ic cn sf si feats hQ hPf
    simp only [scanSub]
    split
    · split
      · exact ih _ _ _ _ _ _ (harr _ (List.get_mem arr _ _)) hPf
      · split
        · exact ih _ _ _ _ _ _ hQ hPf
        · split
          · exact hP _ _ _ _ _ hQ hPf
          · exact ih _ _ _ _ _ _ hQ (hP _ _ _ _ _ hQ hPf)
    · exact hPf

theorem featureEntries_eq_nil_left (intArrays : List (List ℕ))
    (options : Option FourwingsLoaderOptions)
    (ho : options.bind (fun o => o.fourwings) = none) :
    featureEntries intArrays options = [] := by
  unfold featureEntries
  simp only [ho]

theorem featureEntries_eq_nil_right (intArrays : List (List ℕ))
    (options : Option FourwingsLoaderOptions) (o : ParseFourwingsOptions)
    (ho : options.bind (fun x => x.fourwings) = some o)
    (hr : o.initialTimeRange = none) :
    featureEntries intArrays options = [] := by
  unfold featureEntries
  simp only [ho, hr]

theorem featureEntries_eq (intArrays : List (List ℕ))
    (options : Option FourwingsLoaderOptions) (o : ParseFourwingsOptions) (rs re : ℤ)
    (ho : options.bind (fun x => x.fourwings) = some o)
    (hr : o.initialTimeRange = some (rs, re)) :
    featureEntries intArrays options = assembleEntries intArrays o rs re := by
  unfold featureEntries
  simp only [ho, hr]

/-- Membership of values of `getD` in the stream list. -/
theorem getD_stream_mem (intArrays : List (List ℕ)) (Q : ℕ → Prop)
    (harr : ∀ l ∈ intArrays, ∀ v ∈ l, Q v) (sub : ℕ) :
    ∀ v ∈ intArrays.getD sub [], Q v := by
  intro v hv
  rw [List.getD_eq_getElem?_getD] at hv
  cases hg : intArrays[sub]? with
  | none =>
    rw [hg] at hv
    simp at hv
  | some l =>
    rw [hg] at hv
    obtain ⟨hlt, hEq⟩ := List.getElem?_eq_some_iff.mp hg
    exact harr l (hEq ▸ List.getElem_mem hlt) v (by simpa using hv)

/-- The whole assembly preserves any invariant that every record
application preserves. -/
theorem featureEntries_preserves (intArrays : List (List ℕ))
    (options : Option FourwingsLoaderOptions)
    (P : List (ℕ × FourwingsFeature) → Prop) (Q : ℕ → Prop)
    (hP : ∀ o rs re, options.bind (fun x => x.fourwings) = some o →
      o.initialTimeRange = some (rs, re) →
      ∀ sub cn sf ef g feats, Q cn → P feats →
        P (applyRecord (mkAsmConfig intArrays.length o rs re) sub cn sf ef g feats))
    (hQ0 : Q 0) (harr : ∀ l ∈ intArrays, ∀ v ∈ l, Q v) (hnil : P []) :
    P (featureEntries intArrays options) := by
  cases ho : options.bind (fun o => o.fourwings) with
  | none =>
    rw [featureEntries_eq_nil_left intArrays options ho]
    exact hnil
  | some o =>
    cases hr : o.initialTimeRange with
    | none =>
      rw [featureEntries_eq_nil_right intArrays options o ho hr]
      exact hnil
    | some rg =>
      obtain ⟨rs, re⟩ := rg
      rw [featureEntries_eq intArrays options o rs re ho hr]
      unfold assembleEntries
      refine foldl_preserves P _ _ _ ?_ hnil
      intro s sub _ hs
      exact scanSub_preserves _ _ _ P Q (hP o rs re ho hr sub)
        (getD_stream_mem intArrays Q harr sub) _ _ _ _ _ _ _ hQ0 hs

end Preservation

section ObjectValuesLemmas

theorem objectValues_perm (feats : List (ℕ × FourwingsFeature)) :
    (objectValues feats).Perm (feats.map (fun e => e.2)) := by
  unfold objectValues
  refine List.Perm.map _ ?_
  have h2 : feats.filter (fun e => decide (¬ e.1 < 4294967295)) =
      feats.filter (fun e => !decide (e.1 < 4294967295)) := by
    apply List.filter_congr
    intro e _
    exact decide_not
  rw [h2]
  exact ((List.perm_insertionSort _ _).append_right _).trans
    (List.filter_append_perm _ feats)

theorem mem_objectValues (feats : List (ℕ × FourwingsFeature)) (f : FourwingsFeature)
    (h : f ∈ objectValues feats) : ∃ k, (k, f) ∈ feats := by
  have hm := (objectValues_perm feats).mem_iff.mp h
  obtain ⟨⟨k, f'⟩, he, hEq⟩ := List.mem_map.mp hm
  cases hEq
  exact ⟨k, he⟩

theorem objectValues_all_idx (feats : List (ℕ × FourwingsFeature))
    (hidx : ∀ e ∈ feats, e.1 < 4294967295) :
    objectValues feats =
      (feats.insertionSort (fun a b => a.1 ≤ b.1)).map (fun e => e.2) := by
  unfold objectValues
  have h1 : feats.filter (fun e => decide (e.1 < 4294967295)) = feats := by
    rw [List.filter_eq_self]
    intro e he
    simpa using hidx e he
  have h2 : feats.filter (fun e => decide (¬ e.1 < 4294967295)) = [] := by
    rw [List.filter_eq_nil_iff]
    intro e he
    simpa using hidx e he
  rw [h1, h2, List.append_nil]

theorem objectValues_sorted_cellNum (feats : List (ℕ × FourwingsFeature))
    (hidx : ∀ e ∈ feats, e.1 < 4294967295)
    (hcell : ∀ e ∈ feats, e.2.properties.cellNum = e.1) :
    List.Sorted (fun a b => a ≤ b)
      ((objectValues feats).map (fun f => f.properties.cellNum)) := by
  rw [objectValues_all_idx feats hidx, List.map_map]
  haveI ht : IsTotal (ℕ × FourwingsFeature) (fun a b => a.1 ≤ b.1) :=
    ⟨fun a b => le_total a.1 b.1⟩
  haveI htr : IsTrans (ℕ × FourwingsFeature) (fun a b => a.1 ≤ b.1) :=
    ⟨fun a b c h1 h2 => le_trans h1 h2⟩
  have hsorted := List.sorted_insertionSort (fun a b : ℕ × FourwingsFeature => a.1 ≤ b.1) feats
  show List.Pairwise _ _
  rw [List.pairwise_map]
  refine List.Pairwise.imp_of_mem ?_ hsorted
  intro a b ha hb hr
  have hca := hcell a ((List.perm_insertionSort _ _).mem_iff.mp ha)
  have hcb := hcell b ((List.perm_insertionSort _ _).mem_iff.mp hb)
  simpa [hca, hcb] using hr

end ObjectValuesLemmas

end MapLemmas

section SmallLemmas

theorem get?_isSome_of_lt {α : Type} (l : List α) (j : ℕ) (h : j < l.length) :
    (l.get? j).isSome := by
  rw [List.get?_eq_getElem?, List.getElem?_eq_getElem h]
  rfl

theorem get?_eq_getD_of_lt {α : Type} [Inhabited α] (l : List α) (j : ℕ)
    (h : j < l.length) : l.get? j = some (l.getD j default) := by
  rw [List.get?_eq_getElem?, List.getElem?_eq_getElem h, List.getD_eq_getElem?_getD,
    List.getElem?_eq_getElem h]
  rfl

theorem processRecordSub_sum (p : RecParams) (s : SubState) :
    processRecordSub AggOp.sum p s = processLoop p s := rfl

theorem processRecordSub_avg (p : RecParams) (s : SubState) :
    processRecordSub AggOp.avg p s =
      { processLoop p s with
        initialValue := some (jsDivCount (processLoop p s).initialValue
          (processLoop p s).count) } := rfl

theorem processRecordSub_values (agg : AggOp) (p : RecParams) (s : SubState) :
    (processRecordSub agg p s).values = (processLoop p s).values := by
  cases agg <;> rfl

theorem processRecordSub_dates (agg : AggOp) (p : RecParams) (s : SubState) :
    (processRecordSub agg p s).dates = (processLoop p s).dates := by
  cases agg <;> rfl

theorem processRecordSub_startOffset (agg : AggOp) (p : RecParams) (s : SubState) :
    (processRecordSub agg p s).startOffset = (processLoop p s).startOffset := by
  cases agg <;> rfl

theorem processRecordSub_count (agg : AggOp) (p : RecParams) (s : SubState) :
    (processRecordSub agg p s).count = (processLoop p s).count := by
  cases agg <;> rfl

/-- The in-range counter after one whole record on untouched slots. -/
theorem fresh_count_eq (noData : ℕ) (scale offset : ℚ)
    (bands tileStart startFrame trs tre : ℤ) (ts : ℤ → ℤ) (vs : List ℕ) (agg : AggOp) :
    (processRecordSub agg
        (recParamsOfList noData scale offset bands tileStart startFrame trs tre ts vs)
        freshSub).count =
      (keptInRange (recParamsOfList noData scale offset bands tileStart startFrame trs tre ts vs)
        vs.length).length := by
  set p := recParamsOfList noData scale offset bands tileStart startFrame trs tre ts vs with hpdef
  have htot : ∀ j, j < vs.length → (p.getAt j).isSome := fun j hj => get?_isSome_of_lt vs j hj
  have hloop : processLoop p freshSub = loopN p vs.length freshSub := rfl
  rw [processRecordSub_count, hloop]
  rcases loopN_fresh_char p vs.length htot with ⟨hkl, heq⟩ | ⟨_, varr, darr, heq⟩
  · rw [heq, keptInRange_eq_nil_of_all_sentinel p vs.length
      ((keptList_eq_nil_iff p vs.length).mp hkl)]
    rfl
  · rw [heq]

/-- The accumulated initial value after one whole record on untouched
slots, for both aggregation operations. -/
theorem fresh_initialValue_eq (noData : ℕ) (scale offset : ℚ)
    (bands tileStart startFrame trs tre : ℤ) (ts : ℤ → ℤ) (vs : List ℕ) (agg : AggOp) :
    (processRecordSub agg
        (recParamsOfList noData scale offset bands tileStart startFrame trs tre ts vs)
        freshSub).initialValue =
      (if keptList (recParamsOfList noData scale offset bands tileStart startFrame trs tre ts vs)
            vs.length = [] then
        (match agg with
          | AggOp.sum => none
          | AggOp.avg => some JSNum.nan)
       else
        (match agg with
          | AggOp.sum => some (JSNum.num (aggSumQ
              (recParamsOfList noData scale offset bands tileStart startFrame trs tre ts vs)
              vs.length))
          | AggOp.avg =>
            some (if (keptInRange
                  (recParamsOfList noData scale offset bands tileStart startFrame trs tre ts vs)
                  vs.length).length = 0 then JSNum.nan
              else JSNum.num (aggSumQ
                  (recParamsOfList noData scale offset bands tileStart startFrame trs tre ts vs)
                  vs.length /
                ((keptInRange
                  (recParamsOfList noData scale offset bands tileStart startFrame trs tre ts vs)
                  vs.length).length : ℚ))))) := by
  set p := recParamsOfList noData scale offset bands tileStart startFrame trs tre ts vs with hpdef
  have htot : ∀ j, j < vs.length → (p.getAt j).isSome := fun j hj => get?_isSome_of_lt vs j hj
  have hloop : processLoop p freshSub = loopN p vs.length freshSub := rfl
  rcases loopN_fresh_char p vs.length htot with ⟨hkl, heq⟩ | ⟨hkl, varr, darr, heq⟩
  · rw [if_pos hkl]
    cases agg with
    | sum =>
      rw [processRecordSub_sum, hloop, heq]
      rfl
    | avg =>
      rw [processRecordSub_avg, hloop, heq]
      rfl
  · rw [if_neg hkl]
    cases agg with
    | sum =>
      rw [processRecordSub_sum, hloop, heq]
    | avg =>
      rw [processRecordSub_avg, hloop, heq]
      by_cases hc : (keptInRange p vs.length).length = 0
      · have hkir : keptInRange p vs.length = [] := List.length_eq_zero.mp hc
        have hagg0 : aggSumQ p vs.length = 0 := by
          unfold aggSumQ
          rw [hkir]
          rfl
        rw [if_pos hc]
        simp only [jsDivCount, hc, hagg0]
        rfl
      · rw [if_neg hc]
        simp only [jsDivCount, hc]
        rfl

end SmallLemmas

section Claims

/-- C8: an empty or absent `buffersLength` makes `parseFourwings` return
an empty sequence, and an absent `initialTimeRange` makes both
`parseFourwings` and `getCellTimeseries` return an empty sequence; no
error is raised in either case (the embedding is total). -/
theorem c8_theorem (dec : List ℕ → List ℕ) (buf : List ℕ)
    (options : Option FourwingsLoaderOptions) :
    (((options.bind (fun o => o.fourwings)).bind (fun o => o.buffersLength)).getD [] = [] →
      parseFourwings dec buf options = []) ∧
    ((options.bind (fun o => o.fourwings)).bind (fun o => o.initialTimeRange) = none →
      parseFourwings dec buf options = [] ∧
      ∀ intArrays, getCellTimeseries intArrays options = []) := by
  have hg : (options.bind (fun o => o.fourwings)).bind (fun o => o.initialTimeRange) = none →
      ∀ intArrays, getCellTimeseries intArrays options = [] := by
    intro h intArrays
    unfold getCellTimeseries
    cases ho : options.bind (fun o => o.fourwings) with
    | none =>
      rw [featureEntries_eq_nil_left _ _ ho]
      rfl
    | some o =>
      have hr : o.initialTimeRange = none := by
        rw [ho] at h
        simpa using h
      rw [featureEntries_eq_nil_right _ _ o ho hr]
      rfl
  constructor
  · intro h
    simp only [parseFourwings, h]
    rfl
  · intro h
    refine ⟨?_, hg h⟩
    simp only [parseFourwings]
    by_cases hb : (((options.bind (fun o => o.fourwings)).bind
        (fun o => o.buffersLength)).getD []).length = 0
    · rw [if_pos hb]
    · rw [if_neg hb]
      exact hg h _

/-- C8 witness: concrete options with no `buffersLength` and no
`initialTimeRange`. -/
theorem c8_witness :
    (((testOptions 1 none none).bind (fun o => o.fourwings)).bind
        (fun o => o.buffersLength)).getD [] = [] ∧
    ((testOptions 1 none none).bind (fun o => o.fourwings)).bind
        (fun o => o.initialTimeRange) = none ∧
    parseFourwings (fun b => b) [1, 2, 3] (testOptions 1 none none) = [] ∧
    getCellTimeseries [[0, 0, 0, 5]] (testOptions 1 none none) = [] :=
  ⟨rfl, rfl,
    (c8_theorem (fun b => b) [1, 2, 3] (testOptions 1 none none)).1 rfl,
    ((c8_theorem (fun b => b) [1, 2, 3] (testOptions 1 none none)).2 rfl).2 _⟩

/-- C1 counterexample: `bandsPerFrame = 2`, range `[1, 2)`, one record
over frames `[0, 1]` whose only non-sentinel sample sits at position
`j = 2`. By the claim's rule its frame is `startFrame + floor(2/2) = 1`,
in range, so the counter would be 1 (`c1ClaimedKept = [2]`) and the
average would be the number 7. The source tests `j + startFrame = 2`,
out of range (`keptInRange = []`), so the counter is 0 and the average
is `NaN` — which is what the decode returns. -/
theorem c1_counterexample :
    ((getCellTimeseries [[0, 0, 1, 4294967295, 4294967295, 7, 4294967295]]
        (testOptions 2 (some (1, 2)) (some AggOp.avg))).map
      (fun f => f.properties.initialValues.map (fun a => a.map (fun x => decide (x = JSNum.nan))))) =
      [[some true]] ∧
    c1ClaimedKept (recParamsOfList 4294967295 1 0 2 0 0 1 2 (fun f => f)
      [4294967295, 4294967295, 7, 4294967295]) 4 = [2] ∧
    keptInRange (recParamsOfList 4294967295 1 0 2 0 0 1 2 (fun f => f)
      [4294967295, 4294967295, 7, 4294967295]) 4 = [] ∧
    (processRecordSub AggOp.avg (recParamsOfList 4294967295 1 0 2 0 0 1 2 (fun f => f)
      [4294967295, 4294967295, 7, 4294967295]) freshSub).count = 0 := by
  refine ⟨?_, ?_, ?_, ?_⟩ <;> decide

/-- C2 counterexample: with `bandsPerFrame = 2`, a one-frame record
allocates dense arrays of length `2 = (endFrame - startFrame + 1) *
bandsPerFrame`, not `1 = endFrame - startFrame + 1`. -/
theorem c2_counterexample :
    ((getCellTimeseries [[0, 0, 0, 5, 6]] (testOptions 2 (some (0, 2)) none)).map
        (fun f => f.properties.values.map (fun a => Option.map List.length a))) =
      [[some 2]] ∧
    (2 : ℕ) ≠ 0 - 0 + 1 := by
  refine ⟨?_, ?_⟩ <;> decide

/-- C3 counterexample: cells are first encountered in order `[5, 2]`,
but the returned sequence is in ascending cell-index order `[2, 5]`
(JS objects enumerate integer array-index keys in ascending order). -/
theorem c3_counterexample :
    (featureEntries [[5, 0, 0, 7, 2, 0, 0, 8]] (testOptions 1 (some (0, 2)) none)).map
        Prod.fst = [5, 2] ∧
    (getCellTimeseries [[5, 0, 0, 7, 2, 0, 0, 8]] (testOptions 1 (some (0, 2)) none)).map
        (fun f => f.properties.cellNum) = [2, 5] ∧
    ([2, 5] : List ℕ) ≠ [5, 2] := by
  refine ⟨?_, ?_, ?_⟩ <;> decide

/-- C6 counterexample: a record declaring 2 samples in a stream holding
only 1 does not raise; the decode returns a feature whose second dense
slot is the `NaN` produced by the out-of-range (`undefined`) read. -/
theorem c6_counterexample :
    (getCellTimeseries [[0, 0, 1, 5]] (testOptions 1 (some (0, 2)) none)).length = 1 ∧
    ((getCellTimeseries [[0, 0, 1, 5]] (testOptions 1 (some (0, 2)) none)).map
        (fun f => f.properties.values.map (fun a =>
          a.map (fun l => l.map (fun x => x.map (fun v => decide (v = JSNum.nan))))))) =
      [[some [some false, some true]]] := by
  refine ⟨?_, ?_⟩ <;> decide

/-- C7 counterexample: with `sublayers` (`bandsPerFrame`) equal to 0 the
decode does not fail fast; it returns a feature record. -/
theorem c7_counterexample :
    (getCellTimeseries [[0, 0, 5]] (testOptions 0 (some (0, 2)) none)).length = 1 := by
  decide

/-- C1 (amended): for a well-formed record processed on untouched
sublayer slots, a non-sentinel sample at position `j` is accumulated
into the initial value and counted exactly when its tile-relative frame
`startFrame + j` — the raw position, not `startFrame +
floor(j/bandsPerFrame)` as the claim stated — lies in
`[timeRangeStartFrame, timeRangeEndFrame)` (`keptInRange`); after the
record's values are processed, `avg` divides the accumulated sum by the
counter, yielding `NaN` when the counter is zero. -/
theorem c1_amended (noData : ℕ) (scale offset : ℚ)
    (bands tileStart startFrame trs tre : ℤ) (ts : ℤ → ℤ) (vs : List ℕ) (agg : AggOp)
    (p : RecParams)
    (hp : p = recParamsOfList noData scale offset bands tileStart startFrame trs tre ts vs) :
    (processRecordSub agg p freshSub).count = (keptInRange p vs.length).length ∧
    (processRecordSub agg p freshSub).initialValue =
      (if keptList p vs.length = [] then
        (match agg with
          | AggOp.sum => none
          | AggOp.avg => some JSNum.nan)
       else
        (match agg with
          | AggOp.sum => some (JSNum.num (aggSumQ p vs.length))
          | AggOp.avg =>
            some (if (keptInRange p vs.length).length = 0 then JSNum.nan
              else JSNum.num (aggSumQ p vs.length /
                ((keptInRange p vs.length).length : ℚ))))) := by
  subst hp
  exact ⟨fresh_count_eq noData scale offset bands tileStart startFrame trs tre ts vs agg,
    fresh_initialValue_eq noData scale offset bands tileStart startFrame trs tre ts vs agg⟩

/-- C1 witness: a concrete record with samples at frames 10 and 11 and
range `[10, 12)`, summed. -/
theorem c1_witness :
    (recParamsOfList 4294967295 1 0 1 0 10 10 12 (fun f => f) [3, 7] =
      recParamsOfList 4294967295 1 0 1 0 10 10 12 (fun f => f) [3, 7]) ∧
    (processRecordSub AggOp.sum
        (recParamsOfList 4294967295 1 0 1 0 10 10 12 (fun f => f) [3, 7]) freshSub).count =
      (keptInRange (recParamsOfList 4294967295 1 0 1 0 10 10 12 (fun f => f) [3, 7]) 2).length :=
  ⟨rfl, (c1_amended 4294967295 1 0 1 0 10 10 12 (fun f => f) [3, 7] AggOp.sum _ rfl).1⟩

/-- C2 (amended): for a well-formed record with at least one
non-sentinel sample, the dense `values` and `dates` arrays are
allocated with length `(endFrame - startFrame + 1) * bandsPerFrame`
(`numCellValues`), not `endFrame - startFrame + 1`, and every write
stays below that length. -/
theorem c2_amended (noData : ℕ) (scale offset : ℚ)
    (bands tileStart startFrame endFrame trs tre : ℤ) (ts : ℤ → ℤ) (vs : List ℕ)
    (agg : AggOp) (p : RecParams)
    (hp : p = recParamsOfList noData scale offset bands tileStart startFrame trs tre ts vs)
    (hb : 0 < bands)
    (hk : (vs.length : ℤ) = (endFrame - startFrame + 1) * bands)
    (hne : keptList p vs.length ≠ []) :
    ∃ varr darr,
      (processRecordSub agg p freshSub).values = some varr ∧
      (processRecordSub agg p freshSub).dates = some darr ∧
      (varr.length : ℤ) = (endFrame - startFrame + 1) * bands ∧
      (darr.length : ℤ) = (endFrame - startFrame + 1) * bands := by
  subst hp
  set p := recParamsOfList noData scale offset bands tileStart startFrame trs tre ts vs
    with hpdef
  have hloop : processLoop p freshSub = loopN p vs.length freshSub := rfl
  have hbp : (0 : ℤ) < p.sublayers := hb
  have hsome : ∃ a, (loopN p vs.length freshSub).values = some a := by
    rcases loopN_fresh_shape p vs.length with ⟨_, hkl⟩ | ⟨ha, _, _, _, _⟩
    · exact absurd hkl hne
    · exact ha
  rcases loopN_fresh_length p hbp vs.length (le_of_eq rfl) with ⟨h1, _⟩ | ⟨varr, darr, hva, hda, hlv, hld⟩
  · obtain ⟨a, ha⟩ := hsome
    rw [h1] at ha
    cases ha
  · refine ⟨varr, darr, ?_, ?_, ?_, ?_⟩
    · rw [processRecordSub_values, hloop, hva]
    · rw [processRecordSub_dates, hloop, hda]
    · have : varr.length = vs.length := hlv
      omega
    · have : darr.length = vs.length := hld
      omega

/-- C2 witness: a one-frame record with two bands; lengths are 2. -/
theorem c2_witness :
    (0 : ℤ) < 2 ∧
    ((2 : ℕ) : ℤ) = (0 - 0 + 1) * 2 ∧
    keptList (recParamsOfList 4294967295 1 0 2 0 0 0 2 (fun f => f) [5, 6]) 2 ≠ [] ∧
    ∃ varr darr,
      (processRecordSub AggOp.sum
          (recParamsOfList 4294967295 1 0 2 0 0 0 2 (fun f => f) [5, 6]) freshSub).values =
        some varr ∧
      (processRecordSub AggOp.sum
          (recParamsOfList 4294967295 1 0 2 0 0 0 2 (fun f => f) [5, 6]) freshSub).dates =
        some darr ∧
      (varr.length : ℤ) = (0 - 0 + 1) * 2 ∧
      (darr.length : ℤ) = (0 - 0 + 1) * 2 :=
  ⟨by decide, by decide, by decide,
    c2_amended 4294967295 1 0 2 0 0 0 0 2 (fun f => f) [5, 6] AggOp.sum _ rfl
      (by decide) (by decide) (by decide)⟩

/-- C4: for a well-formed record processed on untouched slots, the last
non-sentinel sample of a band group is stored at dense position
`floor(j / bandsPerFrame)` as `raw * scale - offset`, and the timestamp
stored beside it is the frame-to-timestamp mapping applied to
`startFrame + tileStartFrame + j` — the raw position `j`, not
`floor(j / bandsPerFrame)`. -/
theorem c4_theorem (noData : ℕ) (scale offset : ℚ)
    (bands tileStart startFrame trs tre : ℤ) (ts : ℤ → ℤ) (vs : List ℕ)
    (agg : AggOp) (j0 : ℕ) (p : RecParams)
    (hp : p = recParamsOfList noData scale offset bands tileStart startFrame trs tre ts vs)
    (hb : 0 < bands) (hj0 : j0 < vs.length)
    (hkept : ¬ sentinelAt p j0)
    (hlast : ∀ j', j0 < j' → j' < vs.length →
      (j' : ℤ).fdiv bands = (j0 : ℤ).fdiv bands → sentinelAt p j') :
    ∃ varr darr,
      (processRecordSub agg p freshSub).values = some varr ∧
      (processRecordSub agg p freshSub).dates = some darr ∧
      getEntry varr ((j0 : ℤ).fdiv bands).toNat =
        some (JSNum.num ((vs.getD j0 0 : ℚ) * scale - offset)) ∧
      getEntry darr ((j0 : ℤ).fdiv bands).toNat =
        some (ts (startFrame + tileStart + j0)) := by
  subst hp
  set p := recParamsOfList noData scale offset bands tileStart startFrame trs tre ts vs
    with hpdef
  have hloop : processLoop p freshSub = loopN p vs.length freshSub := rfl
  have hbp : (0 : ℤ) < p.sublayers := hb
  obtain ⟨varr, darr, hva, hda, hev, hed⟩ :=
    loopN_slot_write p hbp vs.length j0 hj0 hkept hlast
  refine ⟨varr, darr, ?_, ?_, ?_, ?_⟩
  · rw [processRecordSub_values, hloop, hva]
  · rw [processRecordSub_dates, hloop, hda]
  · have hget : p.getAt j0 = some (vs.getD j0 0) := get?_eq_getD_of_lt vs j0 hj0
    rw [hget] at hev
    exact hev
  · exact hed

/-- C4 witness: `bandsPerFrame = 2`, record `[5, 6]`, position `j0 = 1`
(the last of group 0). -/
theorem c4_witness :
    (0 : ℤ) < 2 ∧ (1 : ℕ) < 2 ∧
    ¬ sentinelAt (recParamsOfList 4294967295 1 0 2 0 10 0 2 (fun f => f) [5, 6]) 1 ∧
    ∃ varr darr,
      (processRecordSub AggOp.sum
          (recParamsOfList 4294967295 1 0 2 0 10 0 2 (fun f => f) [5, 6]) freshSub).values =
        some varr ∧
      (processRecordSub AggOp.sum
          (recParamsOfList 4294967295 1 0 2 0 10 0 2 (fun f => f) [5, 6]) freshSub).dates =
        some darr ∧
      getEntry varr (((1 : ℕ) : ℤ).fdiv 2).toNat =
        some (JSNum.num ((([5, 6].getD 1 0 : ℕ) : ℚ) * 1 - 0)) ∧
      getEntry darr (((1 : ℕ) : ℤ).fdiv 2).toNat = some ((fun f => f) (10 + 0 + (1 : ℕ))) :=
  ⟨by decide, by decide, by decide,
    c4_theorem 4294967295 1 0 2 0 10 0 2 (fun f => f) [5, 6] AggOp.sum 1 _ rfl
      (by decide) (by decide) (by decide) (by intro j' h1 h2 h3; simp at h2; omega)⟩

/-- C5: the default sentinel is `2^32 - 1 = 4294967295`; a band group
consisting only of sentinel samples leaves its dense slot unset in both
`values` and `dates` (or the arrays unallocated entirely), and the
aggregate counter and accumulated sum range only over non-sentinel
samples (`keptInRange` and `aggSumQ` filter the sentinel out). -/
theorem c5_theorem :
    NO_DATA_VALUE = 4294967295 ∧
    ∀ (noData : ℕ) (scale offset : ℚ) (bands tileStart startFrame trs tre : ℤ)
      (ts : ℤ → ℤ) (vs : List ℕ) (agg : AggOp) (g : ℕ) (p : RecParams),
      p = recParamsOfList noData scale offset bands tileStart startFrame trs tre ts vs →
      0 < bands →
      (∀ j, j < vs.length → ((j : ℤ).fdiv bands).toNat = g → sentinelAt p j) →
      (((processRecordSub agg p freshSub).values = none ∧
          (processRecordSub agg p freshSub).dates = none) ∨
        (∃ varr darr, (processRecordSub agg p freshSub).values = some varr ∧
          (processRecordSub agg p freshSub).dates = some darr ∧
          getEntry varr g = none ∧ getEntry darr g = none)) ∧
      (processRecordSub agg p freshSub).count = (keptInRange p vs.length).length ∧
      (keptList p vs.length ≠ [] →
        (processRecordSub AggOp.sum p freshSub).initialValue =
          some (JSNum.num (aggSumQ p vs.length))) := by
  refine ⟨rfl, ?_⟩
  intro noData scale offset bands tileStart startFrame trs tre ts vs agg g p hp hb hg
  subst hp
  set p := recParamsOfList noData scale offset bands tileStart startFrame trs tre ts vs
    with hpdef
  have hloop : processLoop p freshSub = loopN p vs.length freshSub := rfl
  have hbp : (0 : ℤ) < p.sublayers := hb
  refine ⟨?_, ?_, ?_⟩
  · rcases loopN_slot_none p hbp vs.length g hg with ⟨h1, h2⟩ | ⟨varr, darr, hva, hda, hev, hed⟩
    · left
      rw [processRecordSub_values, processRecordSub_dates, hloop, h1, h2]
      exact ⟨rfl, rfl⟩
    · right
      exact ⟨varr, darr, by rw [processRecordSub_values, hloop, hva],
        by rw [processRecordSub_dates, hloop, hda], hev, hed⟩
  · exact fresh_count_eq noData scale offset bands tileStart startFrame trs tre ts vs agg
  · intro hne
    rw [fresh_initialValue_eq noData scale offset bands tileStart startFrame trs tre ts vs
      AggOp.sum, if_neg hne]

/-- C5 witness: record `[sentinel, 7]` with one band per frame: group 0
is all-sentinel, its slot stays unset; the aggregate ranges over the
sample at position 1 only. -/
theorem c5_witness :
    (0 : ℤ) < 1 ∧
    sentinelAt (recParamsOfList 4294967295 1 0 1 0 0 0 2 (fun f => f) [4294967295, 7]) 0 ∧
    (((processRecordSub AggOp.sum
          (recParamsOfList 4294967295 1 0 1 0 0 0 2 (fun f => f) [4294967295, 7])
          freshSub).values = none ∧
        (processRecordSub AggOp.sum
          (recParamsOfList 4294967295 1 0 1 0 0 0 2 (fun f => f) [4294967295, 7])
          freshSub).dates = none) ∨
      (∃ varr darr,
        (processRecordSub AggOp.sum
          (recParamsOfList 4294967295 1 0 1 0 0 0 2 (fun f => f) [4294967295, 7])
          freshSub).values = some varr ∧
        (processRecordSub AggOp.sum
          (recParamsOfList 4294967295 1 0 1 0 0 0 2 (fun f => f) [4294967295, 7])
          freshSub).dates = some darr ∧
        getEntry varr 0 = none ∧ getEntry darr 0 = none)) ∧
    (processRecordSub AggOp.sum
        (recParamsOfList 4294967295 1 0 1 0 0 0 2 (fun f => f) [4294967295, 7])
        freshSub).count =
      (keptInRange (recParamsOfList 4294967295 1 0 1 0 0 0 2 (fun f => f) [4294967295, 7])
        2).length :=
  ⟨by decide, by decide,
    (c5_theorem.2 4294967295 1 0 1 0 0 0 2 (fun f => f) [4294967295, 7] AggOp.sum 0 _ rfl
      (by decide) (by decide)).1,
    ((c5_theorem.2 4294967295 1 0 1 0 0 0 2 (fun f => f) [4294967295, 7] AggOp.sum 0 _ rfl
      (by decide) (by decide)).2).1⟩

/-- C6 (amended): a sublayer stream that does not align with whole
records raises nothing: a record position past the end of the stream
reads `undefined`, which is treated as a non-sentinel sample, stored as
`NaN` (with a timestamp still computed from the raw position), and a
best-effort partial feature collection is returned. -/
theorem c6_amended (noData : ℕ) (scale offset : ℚ)
    (bands tileStart startFrame trs tre : ℤ) (ts : ℤ → ℤ) (vs : List ℕ) (ncv : ℕ)
    (agg : AggOp) (j0 : ℕ) (p : RecParams)
    (hp : p = recParamsTruncated noData scale offset bands tileStart startFrame trs tre ts
      vs ncv)
    (hb : 0 < bands) (hoob : vs.length ≤ j0) (hj0 : j0 < ncv)
    (hlast : ∀ (j' : ℕ), j0 < j' → j' < ncv →
      (j' : ℤ).fdiv bands = (j0 : ℤ).fdiv bands → sentinelAt p j') :
    ∃ varr darr,
      (processRecordSub agg p freshSub).values = some varr ∧
      (processRecordSub agg p freshSub).dates = some darr ∧
      getEntry varr ((j0 : ℤ).fdiv bands).toNat = some JSNum.nan ∧
      getEntry darr ((j0 : ℤ).fdiv bands).toNat =
        some (ts (startFrame + tileStart + j0)) := by
  subst hp
  set p := recParamsTruncated noData scale offset bands tileStart startFrame trs tre ts vs ncv
    with hpdef
  have hloop : processLoop p freshSub = loopN p ncv freshSub := rfl
  have hbp : (0 : ℤ) < p.sublayers := hb
  have hget : p.getAt j0 = none := by
    show vs.get? j0 = none
    rw [List.get?_eq_getElem?]
    exact List.getElem?_eq_none hoob
  have hkept : ¬ sentinelAt p j0 := by
    unfold sentinelAt
    rw [hget]
    simp
  obtain ⟨varr, darr, hva, hda, hev, hed⟩ :=
    loopN_slot_write p hbp ncv j0 hj0 hkept hlast
  refine ⟨varr, darr, ?_, ?_, ?_, ?_⟩
  · rw [processRecordSub_values, hloop, hva]
  · rw [processRecordSub_dates, hloop, hda]
  · rw [hget] at hev
    exact hev
  · exact hed

/-- C6 witness: a record declaring 2 samples over a stream holding only
one; position 1 reads `undefined` and stores `NaN`. -/
theorem c6_witness :
    (0 : ℤ) < 1 ∧ [5].length ≤ 1 ∧ (1 : ℕ) < 2 ∧
    ∃ varr darr,
      (processRecordSub AggOp.sum
          (recParamsTruncated 4294967295 1 0 1 0 0 0 2 (fun f => f) [5] 2) freshSub).values =
        some varr ∧
      (processRecordSub AggOp.sum
          (recParamsTruncated 4294967295 1 0 1 0 0 0 2 (fun f => f) [5] 2) freshSub).dates =
        some darr ∧
      getEntry varr (((1 : ℕ) : ℤ).fdiv 1).toNat = some JSNum.nan ∧
      getEntry darr (((1 : ℕ) : ℤ).fdiv 1).toNat = some ((fun f => f) (0 + 0 + (1 : ℕ))) :=
  ⟨by decide, by decide, by decide,
    c6_amended 4294967295 1 0 1 0 0 0 2 (fun f => f) [5] 2 AggOp.sum 1 _ rfl
      (by decide) (by decide) (by decide) (by intro j' h1 h2 h3; omega)⟩

/-- C10: a record whose samples are all the sentinel still creates the
feature for its cell (the presence-guarded creation happens before the
value loop), but leaves the per-sublayer `values`, `dates` and
`startOffsets` entries unset; conversely, once a record has a
non-sentinel sample the per-sublayer structures are allocated. -/
theorem c10_theorem :
    (∀ (cfg : AsmConfig) (sub cn : ℕ) (sf ef : ℤ) (vs : List ℕ)
        (feats : List (ℕ × FourwingsFeature)),
      findFeat feats cn = none →
      ((ef - sf + 1) * cfg.sublayers).toNat = vs.length →
      (∀ j, j < vs.length → vs.getD j 0 = cfg.noDataValue) →
      ∃ f, findFeat (applyRecord cfg sub cn sf ef (fun j => vs.get? j) feats) cn = some f ∧
        getEntry f.properties.values sub = none ∧
        getEntry f.properties.dates sub = none ∧
        getEntry f.properties.startOffsets sub = none) ∧
    (∀ (noData : ℕ) (scale offset : ℚ) (bands tileStart startFrame trs tre : ℤ)
        (ts : ℤ → ℤ) (vs : List ℕ) (agg : AggOp) (p : RecParams),
      p = recParamsOfList noData scale offset bands tileStart startFrame trs tre ts vs →
      keptList p vs.length ≠ [] →
      ((processRecordSub agg p freshSub).values.isSome ∧
        (processRecordSub agg p freshSub).dates.isSome ∧
        (processRecordSub agg p freshSub).startOffset.isSome)) := by
  constructor
  · intro cfg sub cn sf ef vs feats hnew hlen hsent
    rw [applyRecord_find_new cfg sub cn sf ef _ feats hnew]
    set p' := recParamsOf cfg sf (fun j => vs.get? j) ((ef - sf + 1) * cfg.sublayers).toNat
      with hp'
    have hfresh : extractSub (materializeFeature cfg cn) sub = freshSub := by
      unfold extractSub freshSub materializeFeature
      simp [getEntry_replicate]
    have hkl : keptList p' vs.length = [] := by
      rw [keptList_eq_nil_iff]
      intro j hj
      show p'.getAt j = some p'.noDataValue
      have hg : vs.get? j = some (vs.getD j 0) := get?_eq_getD_of_lt vs j hj
      have : p'.getAt j = vs.get? j := rfl
      rw [this, hg, hsent j hj]
      rfl
    have hncv : p'.ncv = vs.length := hlen
    have hloop : processLoop p' freshSub = loopN p' vs.length freshSub := by
      rw [processLoop_eq_loopN, hncv]
    rcases loopN_fresh_shape p' vs.length with ⟨heq, _⟩ | ⟨_, _, _, _, hne⟩
    · have hv : (processRecordSub cfg.aggregationOperation p'
          (extractSub (materializeFeature cfg cn) sub)).values = none := by
        rw [hfresh, processRecordSub_values, hloop, heq]
        rfl
      have hd : (processRecordSub cfg.aggregationOperation p'
          (extractSub (materializeFeature cfg cn) sub)).dates = none := by
        rw [hfresh, processRecordSub_dates, hloop, heq]
        rfl
      have hs : (processRecordSub cfg.aggregationOperation p'
          (extractSub (materializeFeature cfg cn) sub)).startOffset = none := by
        rw [hfresh, processRecordSub_startOffset, hloop, heq]
        rfl
      refine ⟨_, rfl, ?_, ?_, ?_⟩
      · rw [writeBackSub_values, hv]
        exact getEntry_setEntry_none _ _
      · rw [writeBackSub_dates, hd]
        exact getEntry_setEntry_none _ _
      · rw [writeBackSub_startOffsets, hs]
        exact getEntry_setEntry_none _ _
    · exact absurd hkl hne
  · intro noData scale offset bands tileStart startFrame trs tre ts vs agg p hp hne
    subst hp
    set p := recParamsOfList noData scale offset bands tileStart startFrame trs tre ts vs
      with hpdef
    have hloop : processLoop p freshSub = loopN p vs.length freshSub := rfl
    rcases loopN_fresh_shape p vs.length with ⟨_, hkl⟩ | ⟨⟨va, hva⟩, ⟨da, hda⟩, hso, _, _⟩
    · exact absurd hkl hne
    · refine ⟨?_, ?_, ?_⟩
      · rw [processRecordSub_values, hloop, hva]
        rfl
      · rw [processRecordSub_dates, hloop, hda]
        rfl
      · rw [processRecordSub_startOffset, hloop, hso]
        rfl

/-- C10 witness: an all-sentinel two-sample record for cell 4 on an
empty map creates the feature and leaves the sublayer entries unset. -/
theorem c10_witness :
    findFeat [] 4 = none ∧
    (((1 : ℤ) - 0 + 1) * testCfg.sublayers).toNat = [4294967295, 4294967295].length ∧
    [4294967295, 4294967295].getD 0 0 = testCfg.noDataValue ∧
    ∃ f, findFeat (applyRecord testCfg 0 4 0 1
        (fun j => [4294967295, 4294967295].get? j) []) 4 = some f ∧
      getEntry f.properties.values 0 = none ∧
      getEntry f.properties.dates 0 = none ∧
      getEntry f.properties.startOffsets 0 = none :=
  ⟨rfl, by decide, by decide,
    c10_theorem.1 testCfg 0 4 0 1 [4294967295, 4294967295] [] rfl (by decide) (by decide)⟩

/-- With `sublayers` (`bandsPerFrame`) equal to 0, `numCellValues` is 0
for every record, so the record handler never touches the per-sublayer
`values`, `dates` or `startOffsets` entries. -/
theorem applyRecord_sublayers_zero (cfg : AsmConfig) (hsub : cfg.sublayers = 0)
    (sub cn : ℕ) (sf ef : ℤ) (g : ℕ → Option ℕ) (feats : List (ℕ × FourwingsFeature))
    (h : ∀ e ∈ feats, ∀ s : ℕ,
      getEntry e.2.properties.values s = none ∧
      getEntry e.2.properties.dates s = none ∧
      getEntry e.2.properties.startOffsets s = none) :
    ∀ e ∈ applyRecord cfg sub cn sf ef g feats, ∀ s : ℕ,
      getEntry e.2.properties.values s = none ∧
      getEntry e.2.properties.dates s = none ∧
      getEntry e.2.properties.startOffsets s = none := by
  intro e' he'
  unfold applyRecord at he'
  obtain ⟨e, he, hcase⟩ := mem_updateFeat _ _ _ _ he'
  have hR : ∀ s : ℕ,
      getEntry e.2.properties.values s = none ∧
      getEntry e.2.properties.dates s = none ∧
      getEntry e.2.properties.startOffsets s = none := by
    by_cases hf : (findFeat feats cn).isSome
    · rw [if_pos hf] at he
      exact h e he
    · rw [if_neg hf] at he
      rcases List.mem_append.mp he with h1 | h1
      · exact h e h1
      · have heqe : e = (cn, materializeFeature cfg cn) := by simpa using h1
        rw [heqe]
        intro s
        exact ⟨getEntry_replicate _ _, getEntry_replicate _ _, getEntry_replicate _ _⟩
  rcases hcase with ⟨_, hEq⟩ | ⟨_, hEq⟩
  · rw [hEq]
    exact hR
  · rw [hEq]
    intro s
    have hncv : (recParamsOf cfg sf g ((ef - sf + 1) * cfg.sublayers).toNat).ncv = 0 := by
      show ((ef - sf + 1) * cfg.sublayers).toNat = 0
      rw [hsub, mul_zero]
      rfl
    have hloop : processLoop (recParamsOf cfg sf g ((ef - sf + 1) * cfg.sublayers).toNat)
        (extractSub e.2 sub) = extractSub e.2 sub := by
      rw [processLoop_eq_loopN, hncv]
      rfl
    have hv : (processRecordSub cfg.aggregationOperation
        (recParamsOf cfg sf g ((ef - sf + 1) * cfg.sublayers).toNat)
        (extractSub e.2 sub)).values = getEntry e.2.properties.values sub := by
      rw [processRecordSub_values, hloop]
      rfl
    have hd : (processRecordSub cfg.aggregationOperation
        (recParamsOf cfg sf g ((ef - sf + 1) * cfg.sublayers).toNat)
        (extractSub e.2 sub)).dates = getEntry e.2.properties.dates sub := by
      rw [processRecordSub_dates, hloop]
      rfl
    have hso : (processRecordSub cfg.aggregationOperation
        (recParamsOf cfg sf g ((ef - sf + 1) * cfg.sublayers).toNat)
        (extractSub e.2 sub)).startOffset = getEntry e.2.properties.startOffsets sub := by
      rw [processRecordSub_startOffset, hloop]
      rfl
    refine ⟨?_, ?_, ?_⟩
    · by_cases hss : s = sub
      · subst hss
        rw [writeBackSub_values, hv, (hR s).1]
        exact getEntry_setEntry_none _ _
      · rw [writeBackSub_values, getEntry_setEntry_ne _ _ _ _ hss]
        exact (hR s).1
    · by_cases hss : s = sub
      · subst hss
        rw [writeBackSub_dates, hd, (hR s).2.1]
        exact getEntry_setEntry_none _ _
      · rw [writeBackSub_dates, getEntry_setEntry_ne _ _ _ _ hss]
        exact (hR s).2.1
    · by_cases hss : s = sub
      · subst hss
        rw [writeBackSub_startOffsets, hso, (hR s).2.2]
        exact getEntry_setEntry_none _ _
      · rw [writeBackSub_startOffsets, getEntry_setEntry_ne _ _ _ _ hss]
        exact (hR s).2.2

/-- C7 (amended): a `bandsPerFrame` of 0 is not validated and the
decode does not fail fast: it scans the stream as three-token records
with zero samples, returning feature records whose per-sublayer
`values`, `dates` and `startOffsets` entries are all unset. -/
theorem c7_amended (intArrays : List (List ℕ)) (options : Option FourwingsLoaderOptions)
    (o : ParseFourwingsOptions)
    (ho : options.bind (fun x => x.fourwings) = some o) (hsub : o.sublayers = 0) :
    ∀ f ∈ getCellTimeseries intArrays options, ∀ s : ℕ,
      getEntry f.properties.values s = none ∧
      getEntry f.properties.dates s = none ∧
      getEntry f.properties.startOffsets s = none := by
  intro f hf s
  obtain ⟨k, hk⟩ := mem_objectValues (featureEntries intArrays options) f hf
  have hinv : ∀ e ∈ featureEntries intArrays options, ∀ s : ℕ,
      getEntry e.2.properties.values s = none ∧
      getEntry e.2.properties.dates s = none ∧
      getEntry e.2.properties.startOffsets s = none := by
    apply featureEntries_preserves intArrays options
      (P := fun feats => ∀ e ∈ feats, ∀ s : ℕ,
        getEntry e.2.properties.values s = none ∧
        getEntry e.2.properties.dates s = none ∧
        getEntry e.2.properties.startOffsets s = none)
      (Q := fun _ => True)
    · intro o' rs re ho' _ sub cn sf ef g feats _ hPf
      have hoo : o' = o := by
        rw [ho] at ho'
        exact (Option.some.inj ho').symm
      apply applyRecord_sublayers_zero
      · show o'.sublayers = 0
        rw [hoo, hsub]
      · exact hPf
    · trivial
    · intro l _ v _
      trivial
    · intro e he
      exact absurd he (List.not_mem_nil e)
  exact hinv (k, f) hk s

/-- C7 witness: concrete options with `sublayers = 0`, one stream. -/
theorem c7_witness :
    (∃ o, (testOptions 0 (some (0, 2)) none).bind (fun x => x.fourwings) = some o ∧
      o.sublayers = 0) ∧
    ∃ f, f ∈ getCellTimeseries [[0, 0, 5]] (testOptions 0 (some (0, 2)) none) ∧
      getEntry f.properties.values 0 = none ∧
      getEntry f.properties.dates 0 = none ∧
      getEntry f.properties.startOffsets 0 = none := by
  refine ⟨⟨_, rfl, rfl⟩, ?_⟩
  obtain ⟨f, hf⟩ : ∃ f, getCellTimeseries [[0, 0, 5]] (testOptions 0 (some (0, 2)) none) = [f] :=
    ⟨_, rfl⟩
  have hmem : f ∈ getCellTimeseries [[0, 0, 5]] (testOptions 0 (some (0, 2)) none) := by
    rw [hf]
    exact List.mem_singleton.mpr rfl
  exact ⟨f, hmem, c7_amended [[0, 0, 5]] (testOptions 0 (some (0, 2)) none) _ rfl rfl f hmem 0⟩

/-- C3 (amended): for every decode whose feature keys (the cell
indices latched at record starts) are below `2^32 - 1` — that is, every
cell index is a valid JS array index — the returned sequence is
ordered by ascending cell index, the `Object.values` enumeration order
of integer keys, not by first-encounter order. Sentinel samples or any
other stream values are unconstrained. -/
theorem c3_amended (intArrays : List (List ℕ)) (options : Option FourwingsLoaderOptions)
    (hidx : ∀ e ∈ featureEntries intArrays options, e.1 < 4294967295) :
    List.Sorted (fun a b => a ≤ b)
      ((getCellTimeseries intArrays options).map (fun f => f.properties.cellNum)) := by
  have hcell : ∀ e ∈ featureEntries intArrays options,
      e.2.properties.cellNum = e.1 := by
    apply featureEntries_preserves intArrays options
      (P := fun feats => ∀ e ∈ feats, e.2.properties.cellNum = e.1)
      (Q := fun _ => True)
    · intro o rs re _ _ sub cn sf ef g feats _ hPf
      exact applyRecord_feature_inv (mkAsmConfig intArrays.length o rs re)
        (fun k f => f.properties.cellNum = k) (fun _ => True)
        (fun cn' _ => rfl)
        (fun k f s' s hR => by dsimp only; rw [writeBackSub_cellNum]; exact hR)
        sub cn sf ef g feats trivial hPf
    · trivial
    · intro l _ v _
      trivial
    · intro e he
      exact absurd he (List.not_mem_nil e)
  exact objectValues_sorted_cellNum (featureEntries intArrays options) hidx hcell

/-- C3 witness: cells appear in order 5 then 2, and the stream contains
a sentinel sample (`2^32 - 1`), which the key guard permits; the output
cell indices are sorted ascending. -/
theorem c3_witness :
    (featureEntries [[5, 0, 0, 4294967295, 2, 0, 0, 8]]
        (testOptions 1 (some (0, 2)) none)).map Prod.fst = [5, 2] ∧
    List.Sorted (fun a b => a ≤ b)
      ((getCellTimeseries [[5, 0, 0, 4294967295, 2, 0, 0, 8]]
        (testOptions 1 (some (0, 2)) none)).map (fun f => f.properties.cellNum)) :=
  ⟨by decide,
    c3_amended [[5, 0, 0, 4294967295, 2, 0, 0, 8]] (testOptions 1 (some (0, 2)) none)
      (by decide)⟩

/-- C9: (a) the feature map's keys stay duplicate-free, so the output
holds exactly one record per distinct cell index; (b) every returned
feature's geometry, `cellId`, `col` and `row` are exactly those the
materializer computes from its cell index (set at the guarded creation
and never rewritten); (c) a record for sublayer `sub` leaves the
entries of every other sublayer `s'` of an existing feature unchanged. -/
theorem c9_theorem :
    (∀ (intArrays : List (List ℕ)) (options : Option FourwingsLoaderOptions),
      ((featureEntries intArrays options).map Prod.fst).Nodup ∧
      ((getCellTimeseries intArrays options).map (fun f => f.properties.cellNum)).Nodup) ∧
    (∀ (intArrays : List (List ℕ)) (options : Option FourwingsLoaderOptions)
        (o : ParseFourwingsOptions) (rs re : ℤ) (f : FourwingsFeature),
      options.bind (fun x => x.fourwings) = some o →
      o.initialTimeRange = some (rs, re) →
      f ∈ getCellTimeseries intArrays options →
      f.geometry = (materializeFeature (mkAsmConfig intArrays.length o rs re)
          f.properties.cellNum).geometry ∧
      f.properties.cellId = (materializeFeature (mkAsmConfig intArrays.length o rs re)
          f.properties.cellNum).properties.cellId ∧
      f.properties.col = (materializeFeature (mkAsmConfig intArrays.length o rs re)
          f.properties.cellNum).properties.col ∧
      f.properties.row = (materializeFeature (mkAsmConfig intArrays.length o rs re)
          f.properties.cellNum).properties.row) ∧
    (∀ (cfg : AsmConfig) (sub cn : ℕ) (sf ef : ℤ) (g : ℕ → Option ℕ)
        (feats : List (ℕ × FourwingsFeature)) (k : ℕ) (f : FourwingsFeature) (s' : ℕ),
      s' ≠ sub → findFeat feats k = some f →
      ∃ f', findFeat (applyRecord cfg sub cn sf ef g feats) k = some f' ∧
        getEntry f'.properties.values s' = getEntry f.properties.values s' ∧
        getEntry f'.properties.dates s' = getEntry f.properties.dates s' ∧
        getEntry f'.properties.startOffsets s' = getEntry f.properties.startOffsets s' ∧
        getEntry f'.properties.initialValues s' = getEntry f.properties.initialValues s') := by
  refine ⟨?_, ?_, ?_⟩
  · intro intArrays options
    have hinv : ((featureEntries intArrays options).map Prod.fst).Nodup ∧
        ∀ e ∈ featureEntries intArrays options, e.2.properties.cellNum = e.1 := by
      apply featureEntries_preserves intArrays options
        (P := fun feats => (feats.map Prod.fst).Nodup ∧
          ∀ e ∈ feats, e.2.properties.cellNum = e.1)
        (Q := fun _ => True)
      · intro o rs re _ _ sub cn sf ef g feats _ hPf
        refine ⟨applyRecord_keys_nodup _ _ _ _ _ _ _ hPf.1, ?_⟩
        exact applyRecord_feature_inv (mkAsmConfig intArrays.length o rs re)
          (fun k f => f.properties.cellNum = k) (fun _ => True)
          (fun cn' _ => rfl)
          (fun k f s' s hR => by dsimp only; rw [writeBackSub_cellNum]; exact hR)
          sub cn sf ef g feats trivial hPf.2
      · trivial
      · intro l _ v _
        trivial
      · exact ⟨List.nodup_nil, fun e he => absurd he (List.not_mem_nil e)⟩
    refine ⟨hinv.1, ?_⟩
    have hperm : ((getCellTimeseries intArrays options).map (fun f => f.properties.cellNum)).Perm
        ((featureEntries intArrays options).map Prod.fst) := by
      have h1 := (objectValues_perm (featureEntries intArrays options)).map
        (fun f => f.properties.cellNum)
      rw [List.map_map] at h1
      have h2 : (featureEntries intArrays options).map
          ((fun f => f.properties.cellNum) ∘ (fun e => e.2)) =
          (featureEntries intArrays options).map Prod.fst :=
        List.map_congr_left (fun e he => hinv.2 e he)
      rw [h2] at h1
      exact h1
    exact hperm.symm.nodup hinv.1
  · intro intArrays options o rs re f ho hr hf
    obtain ⟨k, hk⟩ := mem_objectValues (featureEntries intArrays options) f hf
    have hinv : ∀ e ∈ featureEntries intArrays options,
        e.2.properties.cellNum = e.1 ∧
        e.2.geometry = (materializeFeature (mkAsmConfig intArrays.length o rs re) e.1).geometry ∧
        e.2.properties.cellId = (materializeFeature (mkAsmConfig intArrays.length o rs re)
          e.1).properties.cellId ∧
        e.2.properties.col = (materializeFeature (mkAsmConfig intArrays.length o rs re)
          e.1).properties.col ∧
        e.2.properties.row = (materializeFeature (mkAsmConfig intArrays.length o rs re)
          e.1).properties.row := by
      apply featureEntries_preserves intArrays options
        (P := fun feats => ∀ e ∈ feats,
          e.2.properties.cellNum = e.1 ∧
          e.2.geometry = (materializeFeature (mkAsmConfig intArrays.length o rs re) e.1).geometry ∧
          e.2.properties.cellId = (materializeFeature (mkAsmConfig intArrays.length o rs re)
            e.1).properties.cellId ∧
          e.2.properties.col = (materializeFeature (mkAsmConfig intArrays.length o rs re)
            e.1).properties.col ∧
          e.2.properties.row = (materializeFeature (mkAsmConfig intArrays.length o rs re)
            e.1).properties.row)
        (Q := fun _ => True)
      · intro o' rs' re' ho' hr' sub cn sf ef g feats _ hPf
        have hoo : o' = o := by
          rw [ho] at ho'
          exact (Option.some.inj ho').symm
        subst hoo
        rw [hr] at hr'
        have hpair := Option.some.inj hr'
        obtain ⟨h1, h2⟩ := Prod.ext_iff.mp hpair
        dsimp only at h1 h2
        subst h1
        subst h2
        exact applyRecord_feature_inv (mkAsmConfig intArrays.length o' rs re)
          (fun k f =>
            f.properties.cellNum = k ∧
            f.geometry = (materializeFeature (mkAsmConfig intArrays.length o' rs re) k).geometry ∧
            f.properties.cellId = (materializeFeature (mkAsmConfig intArrays.length o' rs re)
              k).properties.cellId ∧
            f.properties.col = (materializeFeature (mkAsmConfig intArrays.length o' rs re)
              k).properties.col ∧
            f.properties.row = (materializeFeature (mkAsmConfig intArrays.length o' rs re)
              k).properties.row)
          (fun _ => True)
          (fun cn' _ => ⟨rfl, rfl, rfl, rfl, rfl⟩)
          (fun k f s' s hR => by
            dsimp only
            rw [writeBackSub_cellNum, writeBackSub_geometry, writeBackSub_cellId,
              writeBackSub_col, writeBackSub_row]
            exact hR)
          sub cn sf ef g feats trivial hPf
      · trivial
      · intro l _ v _
        trivial
      · intro e he
        exact absurd he (List.not_mem_nil e)
    obtain ⟨hcell, hgeom, hid, hcol, hrow⟩ := hinv (k, f) hk
    rw [show f.properties.cellNum = k from hcell]
    exact ⟨hgeom, hid, hcol, hrow⟩
  · intro cfg sub cn sf ef g feats k f s' hs hfind
    by_cases hk : k = cn
    · subst hk
      rw [applyRecord_find_existing cfg sub k sf ef g feats f hfind]
      refine ⟨_, rfl, ?_, ?_, ?_, ?_⟩
      · rw [writeBackSub_values, getEntry_setEntry_ne _ _ _ _ hs]
      · rw [writeBackSub_dates, getEntry_setEntry_ne _ _ _ _ hs]
      · rw [writeBackSub_startOffsets, getEntry_setEntry_ne _ _ _ _ hs]
      · rw [writeBackSub_initialValues, getEntry_setEntry_ne _ _ _ _ hs]
    · rw [applyRecord_find_other cfg sub cn sf ef g feats k hk]
      exact ⟨f, hfind, rfl, rfl, rfl, rfl⟩

/-- C9 witness: two sublayers writing the same cell 3; one output
record, with the materializer's fields, and a record application on
sublayer 0 leaving sublayer 1's entries unchanged. -/
theorem c9_witness :
    ((getCellTimeseries [[3, 0, 0, 7], [3, 0, 0, 9]]
      (testOptions 1 (some (0, 2)) none)).map (fun f => f.properties.cellNum)).Nodup ∧
    (∃ o f, (testOptions 1 (some (0, 2)) none).bind (fun x => x.fourwings) = some o ∧
      f ∈ getCellTimeseries [[3, 0, 0, 7], [3, 0, 0, 9]]
        (testOptions 1 (some (0, 2)) none) ∧
      f.geometry = (materializeFeature (mkAsmConfig 2 o 0 2)
        f.properties.cellNum).geometry) ∧
    (∃ f', findFeat (applyRecord testCfg 0 3 0 0 (fun j => [7].get? j)
        [(3, materializeFeature testCfg 3)]) 3 = some f' ∧
      getEntry f'.properties.values 1 =
        getEntry (materializeFeature testCfg 3).properties.values 1) := by
  refine ⟨(c9_theorem.1 [[3, 0, 0, 7], [3, 0, 0, 9]] (testOptions 1 (some (0, 2)) none)).2,
    ?_, ?_⟩
  · obtain ⟨f, hf⟩ : ∃ f, getCellTimeseries [[3, 0, 0, 7], [3, 0, 0, 9]]
        (testOptions 1 (some (0, 2)) none) = [f] := ⟨_, rfl⟩
    have hmem : f ∈ getCellTimeseries [[3, 0, 0, 7], [3, 0, 0, 9]]
        (testOptions 1 (some (0, 2)) none) := by
      rw [hf]
      exact List.mem_singleton.mpr rfl
    exact ⟨_, f, rfl, hmem,
      (c9_theorem.2.1 [[3, 0, 0, 7], [3, 0, 0, 9]] (testOptions 1 (some (0, 2)) none)
        _ 0 2 f rfl rfl hmem).1⟩
  · obtain ⟨f', hfind, hv, _, _, _⟩ := c9_theorem.2.2 testCfg 0 3 0 0 (fun j => [7].get? j)
      [(3, materializeFeature testCfg 3)] 3 (materializeFeature testCfg 3) 1
      (by decide) rfl
    exact ⟨f', hfind, hv⟩

end Claims

end Fourwings
